import Mathlib

/-!
Verification of the trace-driven set-associative cache simulator.

The repository ships one source file holding two complete simulator
programs.  The first program (the dirty-bit-aware variant) tracks a
dirty bit per line, charges write-back-on-eviction penalties and
write-through store costs; the second (simplified) program has no dirty
bit and charges a flat memory cost for every miss.  Both are embedded
below as pure state-transition functions over lists; machine integers
are modelled by `Nat` (counters in the program are 64-bit and cannot
wrap on any trace shorter than `2^64` accesses, so the idealisation is
exact there; the `ULONG_MAX` sentinel used to seed the minimum-recency
scan is modelled by `Option Nat` with `none` standing for the sentinel,
which coincides with the C semantics whenever every timestamp is below
`2^64 - 1`).
-/

namespace CacheSim

/-- One cache line of the dirty-bit-aware simulator: mirrors
`struct CacheLine \x7b bool valid; bool dirty; unsigned int tag;
unsigned long lastUsed; \x7d`. -/
structure CacheLine where
  valid : Bool
  dirty : Bool
  tag : Nat
  lastUsed : Nat
deriving DecidableEq

/-- The default-initialised line (`valid=false, dirty=false, tag=0,
lastUsed=0`). -/
def emptyLine : CacheLine :=
  { valid := false, dirty := false, tag := 0, lastUsed := 0 }

/-- The validated configuration.  The command-line strings of the
program are abstracted to the booleans the program itself derives from
them: `writeAllocate` stands for `writeAlloc == "write-allocate"`,
`writeBack` for `writePolicy == "write-back"` (its negation is
write-through), `useLRU` for `evictPolicy == "lru"`. -/
structure Config where
  numSets : Nat
  blocksPerSet : Nat
  blockSize : Nat
  writeAllocate : Bool
  writeBack : Bool
  useLRU : Bool
deriving DecidableEq

/-- Mirrors `auto isPowerOfTwo = [](int n) \x7b return n > 0 &&
(n & (n - 1)) == 0; \x7d`. -/
def isPowerOfTwo (n : Nat) : Bool :=
  decide (0 < n) && decide (n &&& (n - 1) = 0)

/-- The three validation checks the program performs before building the
cache, in source order: all size parameters powers of two, block size at
least 4, and no-write-allocate never combined with write-back. -/
def validateConfig (cfg : Config) : Bool :=
  isPowerOfTwo cfg.numSets && isPowerOfTwo cfg.blocksPerSet &&
    isPowerOfTwo cfg.blockSize &&
    decide (4 ≤ cfg.blockSize) &&
    !(!cfg.writeAllocate && cfg.writeBack)

/-- Load or store, the first trace field (`l` or `s`). -/
inductive AccessKind where
  | load : AccessKind
  | store : AccessKind
deriving DecidableEq

/-- One decoded trace record: an operation and an address. -/
structure Access where
  kind : AccessKind
  addr : Nat
deriving DecidableEq

/-- Fuelled, structurally recursive base-2 logarithm (same recurrence
as `Nat.log2`; the fuel makes it computable by kernel reduction). -/
def log2Fuel : Nat → Nat → Nat
  | 0, _ => 0
  | fuel + 1, n => if 2 ≤ n then log2Fuel fuel (n / 2) + 1 else 0

/-- Base-2 logarithm, structurally recursive rendition of `Nat.log2`
(they agree on every input, see `log2_eq_natLog2`). -/
def log2 (n : Nat) : Nat := log2Fuel n n

/-- `log2Fuel` computes `Nat.log2` whenever the fuel suffices. -/
theorem log2Fuel_eq (fuel : Nat) :
    ∀ n : Nat, n ≤ fuel → log2Fuel fuel n = Nat.log2 n := by
  induction fuel with
  | zero =>
    intro n hn
    have hn0 : n = 0 := by omega
    subst hn0
    rw [Nat.log2]
    rfl
  | succ fuel ih =>
    intro n hn
    rw [log2Fuel]
    rw [Nat.log2]
    by_cases h2 : 2 ≤ n
    · rw [if_pos h2, if_pos h2]
      rw [ih (n / 2) (by omega)]
    · rw [if_neg h2, if_neg h2]

/-- The structural `log2` agrees with `Nat.log2` everywhere. -/
theorem log2_eq_natLog2 (n : Nat) : log2 n = Nat.log2 n :=
  log2Fuel_eq n n (Nat.le_refl n)

/-- `unsigned int blockOffsetBits = log2(blockSize)`; the `double`-based
`log2` of the program is exact on the powers of two admitted by
validation, hence the integer base-2 logarithm. -/
def blockOffsetBits (cfg : Config) : Nat := log2 cfg.blockSize

/-- `unsigned int setBits = log2(numSets)`. -/
def setBits (cfg : Config) : Nat := log2 cfg.numSets

/-- `setIndex = (addr >> blockOffsetBits) & ((1 << setBits) - 1)`. -/
def setIndexOf (cfg : Config) (addr : Nat) : Nat :=
  (addr >>> blockOffsetBits cfg) &&& ((1 <<< setBits cfg) - 1)

/-- `tag = addr >> (blockOffsetBits + setBits)`. -/
def tagOf (cfg : Config) (addr : Nat) : Nat :=
  addr >>> (blockOffsetBits cfg + setBits cfg)

/-- The hit test of the scan loop: `set[i].valid && set[i].tag == tag`. -/
def lineHits (t : Nat) (l : CacheLine) : Bool :=
  l.valid && l.tag == t

/-- `lu < oldestTime`, where `oldestTime` starts at the `ULONG_MAX`
sentinel (modelled as `none`). -/
def ltOldest (lu : Nat) : Option Nat → Bool
  | none => true
  | some m => decide (lu < m)

/-- The accumulator of the single scan loop of the first program:
`hitIndex` (`-1` modelled as `none`), `emptyIndex` (first invalid slot),
`evictIndex` together with `oldestTime` (running minimum of `lastUsed`). -/
structure ScanSt where
  hitIndex : Option Nat
  emptyIndex : Option Nat
  evictIndex : Nat
  oldestTime : Option Nat
deriving DecidableEq

/-- `if (!set[i].valid && emptyIndex == -1) emptyIndex = i;` -/
def updEmpty (l : CacheLine) (i : Nat) (st : ScanSt) : ScanSt :=
  if !l.valid && st.emptyIndex.isNone then { st with emptyIndex := some i } else st

/-- `if (set[i].lastUsed < oldestTime) \x7b oldestTime = set[i].lastUsed;
evictIndex = i; \x7d` -/
def updEvict (l : CacheLine) (i : Nat) (st : ScanSt) : ScanSt :=
  if ltOldest l.lastUsed st.oldestTime then
    { st with evictIndex := i, oldestTime := some l.lastUsed } else st

/-- The scan loop body of the first program
(`for (int i = 0; i < blocksPerSet; i++) ...` with `break` on hit):
on a hit the loop stops at once, otherwise it records the first invalid
slot and the strict running minimum of `lastUsed`. -/
def scanGo (t : Nat) : List CacheLine → Nat → ScanSt → ScanSt
  | [], _, st => st
  | l :: rest, i, st =>
    if lineHits t l then
      { st with hitIndex := some i }
    else
      scanGo t rest (i + 1) (updEvict l i (updEmpty l i st))

/-- The whole scan of one set, from index 0 with the initial
accumulator (`hitIndex = -1`, `emptyIndex = -1`, `evictIndex = 0`,
`oldestTime = ULONG_MAX`). -/
def scanSet (t : Nat) (set : List CacheLine) : ScanSt :=
  scanGo t set 0 { hitIndex := none, emptyIndex := none, evictIndex := 0, oldestTime := none }

/-- `int target = (emptyIndex != -1) ? emptyIndex : evictIndex;` -/
def missTarget (sc : ScanSt) : Nat :=
  sc.emptyIndex.getD sc.evictIndex

/-- The write-back-on-eviction penalty of a miss that allocates:
`if (emptyIndex == -1 && writePolicy == "write-back" &&
set[evictIndex].dirty) cycles += 100 * (blockSize / 4);` -/
def missPenalty (cfg : Config) (set : List CacheLine) (sc : ScanSt) : Nat :=
  if sc.emptyIndex.isNone && cfg.writeBack && (set.getD sc.evictIndex emptyLine).dirty then
    100 * (cfg.blockSize / 4) else 0

/-- Full simulator state of the first program: the cache (a vector of
`numSets` sets of `blocksPerSet` lines each) plus all counters. -/
structure SimState where
  cache : List (List CacheLine)
  totalLoads : Nat
  totalStores : Nat
  loadHits : Nat
  loadMisses : Nat
  storeHits : Nat
  storeMisses : Nat
  cycles : Nat
  timeCounter : Nat
deriving DecidableEq

/-- Initial state:
`vector<vector<CacheLine>> cache(numSets, vector<CacheLine>(blocksPerSet))`
and all counters zero. -/
def initState (cfg : Config) : SimState :=
  { cache := List.replicate cfg.numSets (List.replicate cfg.blocksPerSet emptyLine)
    totalLoads := 0, totalStores := 0, loadHits := 0, loadMisses := 0
    storeHits := 0, storeMisses := 0, cycles := 0, timeCounter := 0 }

/-- One trace record processed by the first (dirty-bit-aware) program.
Mirrors the loop body: address decomposition, the single scan,
`timeCounter++`, then the load/store branches with their cycle costs,
write-back-eviction penalty, installs and LRU refresh. -/
def processAccess (cfg : Config) (st : SimState) (a : Access) : SimState :=
  let setIndex := setIndexOf cfg a.addr
  let t := tagOf cfg a.addr
  let set := st.cache.getD setIndex []
  let sc := scanSet t set
  let tc := st.timeCounter + 1
  match a.kind with
  | AccessKind.load =>
    match sc.hitIndex with
    | some h =>
      -- load hit: one cycle; under LRU refresh the hit line's recency
      let set1 := if cfg.useLRU then
        set.set h { set.getD h emptyLine with lastUsed := tc } else set
      { st with cache := st.cache.set setIndex set1
                totalLoads := st.totalLoads + 1, loadHits := st.loadHits + 1
                cycles := st.cycles + 1, timeCounter := tc }
    | none =>
      -- load miss: fetch the block, pay the dirty-eviction penalty when
      -- applicable, install at the first empty slot or at the victim
      let set1 := set.set (missTarget sc)
        { valid := true, dirty := false, tag := t, lastUsed := tc }
      { st with cache := st.cache.set setIndex set1
                totalLoads := st.totalLoads + 1, loadMisses := st.loadMisses + 1
                cycles := st.cycles + (100 * (cfg.blockSize / 4) + 1) + missPenalty cfg set sc
                timeCounter := tc }
  | AccessKind.store =>
    match sc.hitIndex with
    | some h =>
      -- store hit: write-through pays 1+100, write-back pays 1 and
      -- dirties the line; under LRU refresh recency
      let hitCost := if cfg.writeBack then 1 else 1 + 100
      let line0 := set.getD h emptyLine
      let line1 := if cfg.writeBack then { line0 with dirty := true } else line0
      let line2 := if cfg.useLRU then { line1 with lastUsed := tc } else line1
      { st with cache := st.cache.set setIndex (set.set h line2)
                totalStores := st.totalStores + 1, storeHits := st.storeHits + 1
                cycles := st.cycles + hitCost, timeCounter := tc }
    | none =>
      if cfg.writeAllocate then
        -- store miss with write-allocate: fetch, penalty, install, then
        -- write (1+100 through / 1 back, setting the dirty bit)
        let writeCost := if cfg.writeBack then 1 else 1 + 100
        let set1 := set.set (missTarget sc)
          { valid := true, dirty := cfg.writeBack, tag := t, lastUsed := tc }
        { st with cache := st.cache.set setIndex set1
                  totalStores := st.totalStores + 1, storeMisses := st.storeMisses + 1
                  cycles := st.cycles + 100 * (cfg.blockSize / 4) + missPenalty cfg set sc + writeCost
                  timeCounter := tc }
      else
        -- store miss, no-write-allocate: 100 cycles, no cache mutation
        { st with totalStores := st.totalStores + 1, storeMisses := st.storeMisses + 1
                  cycles := st.cycles + 100, timeCounter := tc }

/-- Run the first program over a whole trace. -/
def simulate (cfg : Config) (tr : List Access) : SimState :=
  tr.foldl (processAccess cfg) (initState cfg)

/-- The program as invoked: it validates the configuration first and
simulates only when validation succeeds (`none` models the
configuration-error exit before any access is processed). -/
def runSimulation (cfg : Config) (tr : List Access) : Option SimState :=
  if validateConfig cfg then some (simulate cfg tr) else none

/-- Is tag `t` resident (held by some valid line) in set `s`? -/
def residentB (st : SimState) (s t : Nat) : Bool :=
  (st.cache.getD s []).any fun l => l.valid && l.tag == t

/-! ## The second (simplified) program of the source file -/

/-- One cache line of the second program: no dirty bit. -/
structure CacheLine2 where
  valid : Bool
  tag : Nat
  lastUsed : Nat
deriving DecidableEq

/-- Default-initialised line of the second program. -/
def emptyLine2 : CacheLine2 :=
  { valid := false, tag := 0, lastUsed := 0 }

/-- Scan accumulator of the second program; it keeps only a hit flag
(the LRU refresh happens inside the loop there). -/
structure Scan2St where
  hit : Bool
  emptyIndex : Option Nat
  evictIndex : Nat
  oldestTime : Option Nat
deriving DecidableEq

/-- First-empty-slot update of the second program's scan. -/
def upd2Empty (l : CacheLine2) (i : Nat) (st : Scan2St) : Scan2St :=
  if !l.valid && st.emptyIndex.isNone then { st with emptyIndex := some i } else st

/-- Running-minimum update of the second program's scan. -/
def upd2Evict (l : CacheLine2) (i : Nat) (st : Scan2St) : Scan2St :=
  if ltOldest l.lastUsed st.oldestTime then
    { st with evictIndex := i, oldestTime := some l.lastUsed } else st

/-- The scan loop of the second program.  On a hit it refreshes the hit
line in place with the pre-increment `timeCounter` (`tcPre`) when LRU is
selected, and stops.  It returns the (possibly updated) set together
with the accumulator. -/
def scan2Go (useLRU : Bool) (tcPre t : Nat) :
    List CacheLine2 → Nat → Scan2St → List CacheLine2 × Scan2St
  | [], _, st => ([], st)
  | l :: rest, i, st =>
    if l.valid && l.tag == t then
      ((if useLRU then { l with lastUsed := tcPre } else l) :: rest,
       { st with hit := true })
    else
      let r := scan2Go useLRU tcPre t rest (i + 1) (upd2Evict l i (upd2Empty l i st))
      (l :: r.1, r.2)

/-- Simulator state of the second program. -/
structure SimState2 where
  cache : List (List CacheLine2)
  totalLoads : Nat
  totalStores : Nat
  loadHits : Nat
  loadMisses : Nat
  storeHits : Nat
  storeMisses : Nat
  cycles : Nat
  timeCounter : Nat
deriving DecidableEq

/-- Initial state of the second program. -/
def initState2 (cfg : Config) : SimState2 :=
  { cache := List.replicate cfg.numSets (List.replicate cfg.blocksPerSet emptyLine2)
    totalLoads := 0, totalStores := 0, loadHits := 0, loadMisses := 0
    storeHits := 0, storeMisses := 0, cycles := 0, timeCounter := 0 }

/-- One trace record processed by the second (simplified) program: flat
`100 * (blockSize / 4)` for every miss (the load miss has no extra +1
there), hit cost 1 for both operations, no dirty bit, and installs gated
by write-allocate for stores only. -/
def processAccess2 (cfg : Config) (st : SimState2) (a : Access) : SimState2 :=
  let setIndex := setIndexOf cfg a.addr
  let t := tagOf cfg a.addr
  let set := st.cache.getD setIndex []
  let r := scan2Go cfg.useLRU st.timeCounter t set 0
    { hit := false, emptyIndex := none, evictIndex := 0, oldestTime := none }
  let set1 := r.1
  let sc := r.2
  let tc := st.timeCounter + 1
  match a.kind with
  | AccessKind.load =>
    if sc.hit then
      { st with cache := st.cache.set setIndex set1
                totalLoads := st.totalLoads + 1, loadHits := st.loadHits + 1
                cycles := st.cycles + 1, timeCounter := tc }
    else
      let target := sc.emptyIndex.getD sc.evictIndex
      let set2 := set1.set target { valid := true, tag := t, lastUsed := tc }
      { st with cache := st.cache.set setIndex set2
                totalLoads := st.totalLoads + 1, loadMisses := st.loadMisses + 1
                cycles := st.cycles + 100 * (cfg.blockSize / 4), timeCounter := tc }
  | AccessKind.store =>
    if sc.hit then
      { st with cache := st.cache.set setIndex set1
                totalStores := st.totalStores + 1, storeHits := st.storeHits + 1
                cycles := st.cycles + 1, timeCounter := tc }
    else
      if cfg.writeAllocate then
        let target := sc.emptyIndex.getD sc.evictIndex
        let set2 := set1.set target { valid := true, tag := t, lastUsed := tc }
        { st with cache := st.cache.set setIndex set2
                  totalStores := st.totalStores + 1, storeMisses := st.storeMisses + 1
                  cycles := st.cycles + 100 * (cfg.blockSize / 4), timeCounter := tc }
      else
        { st with totalStores := st.totalStores + 1, storeMisses := st.storeMisses + 1
                  cycles := st.cycles + 100 * (cfg.blockSize / 4), timeCounter := tc }

/-- Run the second program over a whole trace. -/
def simulate2 (cfg : Config) (tr : List Access) : SimState2 :=
  tr.foldl (processAccess2 cfg) (initState2 cfg)

/-- Is tag `t` resident in set `s` of the second program's cache? -/
def residentB2 (st : SimState2) (s t : Nat) : Bool :=
  (st.cache.getD s []).any fun l => l.valid && l.tag == t

/-! ## Trace-level observation helpers -/

/-- Does the access at position `p` of the trace install a block into
set `s` (that is: it maps to set `s`, it misses there, and it is a load
or a write-allocate store)? -/
def isInstallInto (cfg : Config) (tr : List Access) (s p : Nat) : Bool :=
  match tr[p]? with
  | none => false
  | some a =>
    setIndexOf cfg a.addr == s &&
    !(residentB (simulate cfg (tr.take p)) s (tagOf cfg a.addr)) &&
    (match a.kind with
     | AccessKind.load => true
     | AccessKind.store => cfg.writeAllocate)

/-- Positions in `[lo, hi)` whose access installs a block into set `s`. -/
def installPositionsIn (cfg : Config) (tr : List Access) (s lo hi : Nat) : List Nat :=
  ((List.range hi).drop lo).filter fun p => isInstallInto cfg tr s p

/-- Tags installed into set `s` over the whole trace, in order. -/
def installedTags (cfg : Config) (tr : List Access) (s : Nat) : List Nat :=
  (installPositionsIn cfg tr s 0 tr.length).map fun p =>
    tagOf cfg (tr.getD p (⟨AccessKind.load, 0⟩ : Access)).addr

/-- The tags other than `T` of the accesses of `mid` that map to set
`s`, in order (with repetitions). -/
def otherTags (cfg : Config) (s T : Nat) (mid : List Access) : List Nat :=
  mid.filterMap fun a =>
    if setIndexOf cfg a.addr = s ∧ tagOf cfg a.addr ≠ T then
      some (tagOf cfg a.addr) else none

/-! ## Arithmetic facts about the validation checks -/

/-- The bit trick `n & (n-1) == 0` characterises the powers of two among
the positive numbers. -/
theorem land_pred_eq_zero_iff :
    ∀ n : Nat, 0 < n → (n &&& (n - 1) = 0 ↔ ∃ k, n = 2 ^ k) := by
  intro n
  induction n using Nat.strong_induction_on with
  | _ n ih =>
    intro hn
    rcases Nat.lt_or_ge n 2 with h2 | h2
    · have hn1 : n = 1 := by omega
      subst hn1
      refine ⟨fun _ => ⟨0, rfl⟩, fun _ => by decide⟩
    · have hmod : (n &&& (n - 1)) % 2 = 0 := by
        rcases eq_or_ne ((n &&& (n - 1)) % 2) 1 with h1 | h1
        · rw [Nat.and_mod_two_eq_one] at h1
          omega
        · omega
      have hsplit : n &&& (n - 1) = 0 ↔ (n &&& (n - 1)) / 2 = 0 := by
        omega
      rw [hsplit, Nat.and_div_two]
      rcases eq_or_ne (n % 2) 0 with he | ho
      · have hd : (n - 1) / 2 = n / 2 - 1 := by omega
        rw [hd]
        have hdle : n / 2 < n := by omega
        have hdpos : 0 < n / 2 := by omega
        rw [ih (n / 2) hdle hdpos]
        constructor
        · rintro ⟨k, hk⟩
          exact ⟨k + 1, by rw [Nat.pow_succ]; omega⟩
        · rintro ⟨k, hk⟩
          match k with
          | 0 => omega
          | k + 1 =>
            refine ⟨k, ?_⟩
            rw [Nat.pow_succ] at hk
            omega
      · have hd : (n - 1) / 2 = n / 2 := by omega
        rw [hd, Nat.and_self]
        constructor
        · intro h
          omega
        · rintro ⟨k, hk⟩
          match k with
          | 0 => omega
          | k + 1 =>
            rw [Nat.pow_succ] at hk
            omega

/-- `isPowerOfTwo` is correct: it accepts exactly the powers of two. -/
theorem isPowerOfTwo_iff (n : Nat) : isPowerOfTwo n = true ↔ ∃ k, n = 2 ^ k := by
  unfold isPowerOfTwo
  rw [Bool.and_eq_true, decide_eq_true_eq, decide_eq_true_eq]
  constructor
  · rintro ⟨hpos, hand⟩
    exact (land_pred_eq_zero_iff n hpos).1 hand
  · rintro ⟨k, hk⟩
    have hpos : 0 < n := by
      subst hk
      exact Nat.pos_pow_of_pos k (by omega)
    exact ⟨hpos, (land_pred_eq_zero_iff n hpos).2 ⟨k, hk⟩⟩

/-- Unfolded form of the validation predicate. -/
theorem validateConfig_iff (cfg : Config) :
    validateConfig cfg = true ↔
      isPowerOfTwo cfg.numSets = true ∧ isPowerOfTwo cfg.blocksPerSet = true ∧
      isPowerOfTwo cfg.blockSize = true ∧ 4 ≤ cfg.blockSize ∧
      ¬(cfg.writeAllocate = false ∧ cfg.writeBack = true) := by
  unfold validateConfig
  cases cfg.writeAllocate <;> cases cfg.writeBack <;>
    simp [Bool.and_eq_true, decide_eq_true_eq, and_assoc]

/-- A valid configuration has `numSets = 2 ^ setBits`. -/
theorem numSets_eq_two_pow (cfg : Config) (hv : validateConfig cfg = true) :
    cfg.numSets = 2 ^ setBits cfg := by
  obtain ⟨k, hk⟩ := (isPowerOfTwo_iff _).1 ((validateConfig_iff cfg).1 hv).1
  rw [setBits, hk, log2_eq_natLog2, Nat.log2_two_pow]

/-- Every decomposed set index of a valid configuration addresses an
existing set. -/
theorem setIndexOf_lt (cfg : Config) (hv : validateConfig cfg = true) (addr : Nat) :
    setIndexOf cfg addr < cfg.numSets := by
  have hmask : (1 <<< setBits cfg) - 1 = 2 ^ setBits cfg - 1 := by
    rw [Nat.shiftLeft_eq, Nat.one_mul]
  have hle : setIndexOf cfg addr ≤ 2 ^ setBits cfg - 1 := by
    rw [setIndexOf, hmask]
    exact Nat.and_le_right
  have hpow : 0 < 2 ^ setBits cfg := Nat.pos_pow_of_pos _ (by omega)
  rw [numSets_eq_two_pow cfg hv]
  omega

/-- A valid configuration has a positive number of lines per set. -/
theorem blocksPerSet_pos (cfg : Config) (hv : validateConfig cfg = true) :
    0 < cfg.blocksPerSet := by
  obtain ⟨k, hk⟩ := (isPowerOfTwo_iff _).1 ((validateConfig_iff cfg).1 hv).2.1
  rw [hk]
  exact Nat.pos_pow_of_pos k (by omega)

/-! ## Characterisation of the scan loop -/

/-- Helper: in-range `getD` is `getElem`. -/
theorem getD_eq_getElem_of_lt {α : Type} (L : List α) (d : α) {j : Nat}
    (h : j < L.length) : L.getD j d = L[j] := by
  simp [List.getD_eq_getElem?_getD, List.getElem?_eq_getElem h]

/-- Helper: pointwise property over members, by index. -/
theorem forall_mem_iff_getD {α : Type} (L : List α) (d : α) (P : α → Prop) :
    (∀ l ∈ L, P l) ↔ ∀ j, j < L.length → P (L.getD j d) := by
  constructor
  · intro h j hj
    rw [getD_eq_getElem_of_lt L d hj]
    exact h _ (List.getElem_mem hj)
  · intro h l hl
    obtain ⟨j, hj, rfl⟩ := List.mem_iff_getElem.1 hl
    rw [← getD_eq_getElem_of_lt L d hj]
    exact h j hj

/-- What the `emptyIndex` accumulator means after the first `n` lines of
`A` have been scanned: `none` when all of them are valid, otherwise the
first invalid index. -/
def EmptySpec (A : List CacheLine) (n : Nat) : Option Nat → Prop
  | none => ∀ j, j < n → (A.getD j emptyLine).valid = true
  | some e => e < A.length ∧ (A.getD e emptyLine).valid = false ∧
      ∀ j, j < e → (A.getD j emptyLine).valid = true

/-- What `evictIndex`/`oldestTime` mean after the first `n` lines of `A`
have been scanned: `oldestTime` is still the sentinel only while nothing
was scanned, and otherwise holds the minimum `lastUsed` of the scanned
prefix, attained at `evictIndex`. -/
def EvictSpec (A : List CacheLine) (n ei : Nat) : Option Nat → Prop
  | none => n = 0
  | some m => ei < A.length ∧ (A.getD ei emptyLine).lastUsed = m ∧
      ∀ j, j < n → m ≤ (A.getD j emptyLine).lastUsed

/-- `updEmpty` does not touch the other accumulator fields. -/
theorem updEmpty_frame (l : CacheLine) (i : Nat) (st : ScanSt) :
    (updEmpty l i st).hitIndex = st.hitIndex ∧
    (updEmpty l i st).evictIndex = st.evictIndex ∧
    (updEmpty l i st).oldestTime = st.oldestTime := by
  unfold updEmpty
  split <;> exact ⟨rfl, rfl, rfl⟩

/-- `updEvict` does not touch the other accumulator fields. -/
theorem updEvict_frame (l : CacheLine) (i : Nat) (st : ScanSt) :
    (updEvict l i st).hitIndex = st.hitIndex ∧
    (updEvict l i st).emptyIndex = st.emptyIndex := by
  unfold updEvict
  split <;> exact ⟨rfl, rfl⟩

/-- `updEmpty` advances the first-invalid-slot summary by one line. -/
theorem updEmpty_spec (A : List CacheLine) (n : Nat) (l : CacheLine) (st : ScanSt)
    (hnlt : n < A.length) (hgetn : A.getD n emptyLine = l)
    (hemp : EmptySpec A n st.emptyIndex) :
    EmptySpec A (n + 1) (updEmpty l n st).emptyIndex := by
  unfold updEmpty
  cases he : st.emptyIndex with
  | none =>
    rw [he] at hemp
    simp only [EmptySpec] at hemp
    cases hval : l.valid with
    | false =>
      simp only [hval, he, Bool.not_false, Option.isNone_none, Bool.and_self, if_true,
        EmptySpec]
      exact ⟨hnlt, by rw [hgetn]; exact hval, fun j hj => hemp j hj⟩
    | true =>
      simp only [hval, he, Bool.not_true, Option.isNone_none, Bool.false_and,
        Bool.false_eq_true, if_false, EmptySpec]
      intro j hj
      rcases Nat.lt_or_ge j n with h | h
      · exact hemp j h
      · have hj' : j = n := by omega
        rw [hj', hgetn]
        exact hval
  | some e =>
    rw [he] at hemp
    simp only [EmptySpec] at hemp
    simp only [he, Option.isNone_some, Bool.and_false, Bool.false_eq_true, if_false, he,
      EmptySpec]
    exact hemp

/-- `updEvict` advances the running-minimum summary by one line. -/
theorem updEvict_spec (A : List CacheLine) (n : Nat) (l : CacheLine) (st : ScanSt)
    (hnlt : n < A.length) (hgetn : A.getD n emptyLine = l)
    (hev : EvictSpec A n st.evictIndex st.oldestTime) :
    EvictSpec A (n + 1) (updEvict l n st).evictIndex (updEvict l n st).oldestTime := by
  unfold updEvict
  split
  · -- the running minimum moves to line n
    simp only [EvictSpec]
    refine ⟨hnlt, by rw [hgetn], fun j hj => ?_⟩
    rcases Nat.lt_or_ge j n with h | h
    · cases ho : st.oldestTime with
      | none =>
        rw [ho] at hev
        simp only [EvictSpec] at hev
        omega
      | some m =>
        rename_i hc
        rw [ho] at hev hc
        simp only [EvictSpec] at hev
        simp only [ltOldest, decide_eq_true_eq] at hc
        have := hev.2.2 j h
        omega
    · have hj' : j = n := by omega
      rw [hj', hgetn]
  · -- line n does not beat the running minimum
    rename_i hc
    cases ho : st.oldestTime with
    | none =>
      rw [ho] at hc
      simp [ltOldest] at hc
    | some m =>
      rw [ho] at hev hc
      simp only [ltOldest, decide_eq_true_eq] at hc
      simp only [EvictSpec] at hev ⊢
      refine ⟨hev.1, hev.2.1, fun j hj => ?_⟩
      rcases Nat.lt_or_ge j n with h | h
      · exact hev.2.2 j h
      · have hj' : j = n := by omega
        rw [hj', hgetn]
        omega

/-- The scan never reports a hit when no line matches, and in that case
it scans the whole set, computing the first empty slot and the
minimum-recency victim. -/
theorem scanGo_no_hit_spec (t : Nat) :
    ∀ (L A : List CacheLine) (n : Nat) (st : ScanSt),
      A.drop n = L →
      st.hitIndex = none →
      (∀ l ∈ L, lineHits t l = false) →
      EmptySpec A n st.emptyIndex →
      EvictSpec A n st.evictIndex st.oldestTime →
      (scanGo t L n st).hitIndex = none ∧
      EmptySpec A A.length (scanGo t L n st).emptyIndex ∧
      EvictSpec A A.length (scanGo t L n st).evictIndex (scanGo t L n st).oldestTime := by
  intro L
  induction L with
  | nil =>
    intro A n st hdrop hhit _ hemp hev
    have hlen : A.length ≤ n := List.drop_eq_nil_iff.1 hdrop
    rw [scanGo]
    refine ⟨hhit, ?_, ?_⟩
    · cases he : st.emptyIndex with
      | none =>
        rw [he] at hemp
        simp only [EmptySpec] at hemp ⊢
        intro j hj
        exact hemp j (by omega)
      | some e =>
        rw [he] at hemp
        exact hemp
    · cases ho : st.oldestTime with
      | none =>
        rw [ho] at hev
        simp only [EvictSpec] at hev ⊢
        omega
      | some m =>
        rw [ho] at hev
        simp only [EvictSpec] at hev ⊢
        exact ⟨hev.1, hev.2.1, fun j hj => hev.2.2 j (by omega)⟩
  | cons l rest ih =>
    intro A n st hdrop hhit hnom hemp hev
    have hn : A[n]? = some l := by
      have h0 : (A.drop n)[0]? = some l := by rw [hdrop]; simp
      rw [List.getElem?_drop] at h0
      simpa using h0
    have hnlt : n < A.length := by
      rcases Nat.lt_or_ge n A.length with h | h
      · exact h
      · rw [List.getElem?_eq_none (by omega)] at hn
        cases hn
    have hgetn : A.getD n emptyLine = l := by
      rw [List.getD_eq_getElem?_getD, hn]
      rfl
    have hdrop1 : A.drop (n + 1) = rest := by
      have h1 : A.drop (n + 1) = (A.drop n).drop 1 := by
        rw [List.drop_drop]
      rw [h1, hdrop]
      rfl
    have hlhit : lineHits t l = false := hnom l (by simp)
    rw [scanGo, hlhit]
    simp only [Bool.false_eq_true, if_false]
    have hhit2 : (updEvict l n (updEmpty l n st)).hitIndex = none := by
      rw [(updEvict_frame _ _ _).1, (updEmpty_frame _ _ _).1, hhit]
    have hemp2 : EmptySpec A (n + 1) (updEvict l n (updEmpty l n st)).emptyIndex := by
      rw [(updEvict_frame _ _ _).2]
      exact updEmpty_spec A n l st hnlt hgetn hemp
    have hev2 : EvictSpec A (n + 1) (updEvict l n (updEmpty l n st)).evictIndex
        (updEvict l n (updEmpty l n st)).oldestTime := by
      have h1 := (updEmpty_frame l n st).2.1
      have h2 := (updEmpty_frame l n st).2.2
      exact updEvict_spec A n l (updEmpty l n st) hnlt hgetn (by rw [h1, h2]; exact hev)
    exact ih A (n + 1) _ hdrop1 hhit2 (fun x hx => hnom x (by simp [hx])) hemp2 hev2

/-- The scan misses exactly when no line of the set matches. -/
theorem scanGo_hitIndex_none_iff (t : Nat) :
    ∀ (L : List CacheLine) (n : Nat) (st : ScanSt), st.hitIndex = none →
      ((scanGo t L n st).hitIndex = none ↔ ∀ l ∈ L, lineHits t l = false) := by
  intro L
  induction L with
  | nil =>
    intro n st hhit
    rw [scanGo]
    simp [hhit]
  | cons l rest ih =>
    intro n st hhit
    rw [scanGo]
    cases hl : lineHits t l with
    | true =>
      simp only [if_true]
      constructor
      · intro h
        cases h
      · intro h
        have := h l (by simp)
        rw [hl] at this
        cases this
    | false =>
      simp only [Bool.false_eq_true, if_false]
      have hhit2 : (updEvict l n (updEmpty l n st)).hitIndex = none := by
        rw [(updEvict_frame _ _ _).1, (updEmpty_frame _ _ _).1, hhit]
      rw [ih (n + 1) _ hhit2]
      constructor
      · intro h x hx
        rcases List.mem_cons.1 hx with rfl | hx'
        · exact hl
        · exact h x hx'
      · intro h x hx
        exact h x (by simp [hx])

/-- When the scan hits, the hit index is the first matching line. -/
theorem scanGo_hitIndex_some (t : Nat) :
    ∀ (L A : List CacheLine) (n : Nat) (st : ScanSt), A.drop n = L →
      st.hitIndex = none →
      ∀ j, (scanGo t L n st).hitIndex = some j →
        n ≤ j ∧ j < A.length ∧ lineHits t (A.getD j emptyLine) = true ∧
        ∀ m, n ≤ m → m < j → lineHits t (A.getD m emptyLine) = false := by
  intro L
  induction L with
  | nil =>
    intro A n st hdrop hhit j hj
    rw [scanGo] at hj
    rw [hhit] at hj
    cases hj
  | cons l rest ih =>
    intro A n st hdrop hhit j hj
    have hn : A[n]? = some l := by
      have h0 : (A.drop n)[0]? = some l := by rw [hdrop]; simp
      rw [List.getElem?_drop] at h0
      simpa using h0
    have hnlt : n < A.length := by
      rcases Nat.lt_or_ge n A.length with h | h
      · exact h
      · rw [List.getElem?_eq_none (by omega)] at hn
        cases hn
    have hgetn : A.getD n emptyLine = l := by
      rw [List.getD_eq_getElem?_getD, hn]
      rfl
    have hdrop1 : A.drop (n + 1) = rest := by
      have h1 : A.drop (n + 1) = (A.drop n).drop 1 := by
        rw [List.drop_drop]
      rw [h1, hdrop]
      rfl
    rw [scanGo] at hj
    cases hl : lineHits t l with
    | true =>
      rw [hl] at hj
      simp only [if_true] at hj
      have hjn : j = n := by
        cases hj
        rfl
      subst hjn
      exact ⟨Nat.le_refl _, hnlt, by rw [hgetn]; exact hl, fun m h1 h2 => by omega⟩
    | false =>
      rw [hl] at hj
      simp only [Bool.false_eq_true, if_false] at hj
      have hhit2 : (updEvict l n (updEmpty l n st)).hitIndex = none := by
        rw [(updEvict_frame _ _ _).1, (updEmpty_frame _ _ _).1, hhit]
      obtain ⟨h1, h2, h3, h4⟩ := ih A (n + 1) _ hdrop1 hhit2 j hj
      refine ⟨by omega, h2, h3, fun m hm1 hm2 => ?_⟩
      rcases Nat.lt_or_ge m (n + 1) with h | h
      · have hmn : m = n := by omega
        rw [hmn, hgetn]
        exact hl
      · exact h4 m h hm2

/-- Miss characterisation at the top level: the scan of a whole set
reports no hit exactly when no line matches. -/
theorem scanSet_hitIndex_none_iff (t : Nat) (L : List CacheLine) :
    (scanSet t L).hitIndex = none ↔ ∀ l ∈ L, lineHits t l = false :=
  scanGo_hitIndex_none_iff t L 0 _ rfl

/-- Hit characterisation at the top level: the hit index is the first
matching line of the set. -/
theorem scanSet_hitIndex_some (t : Nat) (L : List CacheLine) (j : Nat)
    (hj : (scanSet t L).hitIndex = some j) :
    j < L.length ∧ lineHits t (L.getD j emptyLine) = true ∧
    ∀ m, m < j → lineHits t (L.getD m emptyLine) = false := by
  obtain ⟨_, h2, h3, h4⟩ :=
    scanGo_hitIndex_some t L L 0 _ (by simp) rfl j hj
  exact ⟨h2, h3, fun m hm => h4 m (Nat.zero_le m) hm⟩

/-- Full-scan summary on a miss: first empty slot and minimum-recency
victim over the whole set. -/
theorem scanSet_miss_spec (t : Nat) (L : List CacheLine)
    (hm : ∀ l ∈ L, lineHits t l = false) :
    (scanSet t L).hitIndex = none ∧
    EmptySpec L L.length (scanSet t L).emptyIndex ∧
    EvictSpec L L.length (scanSet t L).evictIndex (scanSet t L).oldestTime := by
  refine scanGo_no_hit_spec t L L 0 _ (by simp) rfl hm ?_ ?_
  · simp only [EmptySpec]
    omega
  · simp only [EvictSpec]

/-- Residency of a tag is exactly a matching line, is exactly a scan
hit. -/
theorem residentB_iff_scan_hit (st : SimState) (s : Nat) (t : Nat) :
    residentB st s t = true ↔ (scanSet t (st.cache.getD s [])).hitIndex ≠ none := by
  rw [residentB, List.any_eq_true]
  constructor
  · rintro ⟨l, hl, hp⟩ hnone
    have := (scanSet_hitIndex_none_iff t _).1 hnone l hl
    rw [lineHits] at this
    rw [this] at hp
    cases hp
  · intro h
    cases hx : (scanSet t (st.cache.getD s [])).hitIndex with
    | none => exact absurd hx h
    | some j =>
      obtain ⟨h1, h2, _⟩ := scanSet_hitIndex_some t _ j hx
      refine ⟨(st.cache.getD s []).getD j emptyLine, ?_, h2⟩
      rw [getD_eq_getElem_of_lt _ _ h1]
      exact List.getElem_mem h1

/-! ## Branch equations of the step function -/

/-- `getD` of `set` at the written index. -/
theorem getD_set_self {α : Type} (L : List α) (k : Nat) (x d : α) (hk : k < L.length) :
    (L.set k x).getD k d = x := by
  rw [List.getD_eq_getElem?_getD, List.getElem?_set_self hk]
  rfl

/-- `getD` of `set` elsewhere. -/
theorem getD_set_ne {α : Type} (L : List α) (k j : Nat) (x d : α) (h : k ≠ j) :
    (L.set k x).getD j d = L.getD j d := by
  rw [List.getD_eq_getElem?_getD, List.getElem?_set_ne h, ← List.getD_eq_getElem?_getD]

/-- Step equation: load hit. -/
theorem processAccess_load_hit (cfg : Config) (st : SimState) (a : Access) (h : Nat)
    (hk : a.kind = AccessKind.load)
    (hh : (scanSet (tagOf cfg a.addr) (st.cache.getD (setIndexOf cfg a.addr) [])).hitIndex
      = some h) :
    processAccess cfg st a = { st with
      cache := st.cache.set (setIndexOf cfg a.addr)
        (if cfg.useLRU then
          (st.cache.getD (setIndexOf cfg a.addr) []).set h
            { (st.cache.getD (setIndexOf cfg a.addr) []).getD h emptyLine with
              lastUsed := st.timeCounter + 1 }
         else st.cache.getD (setIndexOf cfg a.addr) [])
      totalLoads := st.totalLoads + 1, loadHits := st.loadHits + 1
      cycles := st.cycles + 1, timeCounter := st.timeCounter + 1 } := by
  simp only [processAccess, hk, hh]

/-- Step equation: load miss. -/
theorem processAccess_load_miss (cfg : Config) (st : SimState) (a : Access)
    (hk : a.kind = AccessKind.load)
    (hh : (scanSet (tagOf cfg a.addr) (st.cache.getD (setIndexOf cfg a.addr) [])).hitIndex
      = none) :
    processAccess cfg st a = { st with
      cache := st.cache.set (setIndexOf cfg a.addr)
        ((st.cache.getD (setIndexOf cfg a.addr) []).set
          (missTarget (scanSet (tagOf cfg a.addr) (st.cache.getD (setIndexOf cfg a.addr) [])))
          { valid := true, dirty := false, tag := tagOf cfg a.addr
            lastUsed := st.timeCounter + 1 })
      totalLoads := st.totalLoads + 1, loadMisses := st.loadMisses + 1
      cycles := st.cycles + (100 * (cfg.blockSize / 4) + 1) +
        missPenalty cfg (st.cache.getD (setIndexOf cfg a.addr) [])
          (scanSet (tagOf cfg a.addr) (st.cache.getD (setIndexOf cfg a.addr) []))
      timeCounter := st.timeCounter + 1 } := by
  simp only [processAccess, hk, hh]

/-- Step equation: store hit. -/
theorem processAccess_store_hit (cfg : Config) (st : SimState) (a : Access) (h : Nat)
    (hk : a.kind = AccessKind.store)
    (hh : (scanSet (tagOf cfg a.addr) (st.cache.getD (setIndexOf cfg a.addr) [])).hitIndex
      = some h) :
    processAccess cfg st a = { st with
      cache := st.cache.set (setIndexOf cfg a.addr)
        ((st.cache.getD (setIndexOf cfg a.addr) []).set h
          (let line0 := (st.cache.getD (setIndexOf cfg a.addr) []).getD h emptyLine
           let line1 := if cfg.writeBack then { line0 with dirty := true } else line0
           if cfg.useLRU then { line1 with lastUsed := st.timeCounter + 1 } else line1))
      totalStores := st.totalStores + 1, storeHits := st.storeHits + 1
      cycles := st.cycles + (if cfg.writeBack then 1 else 1 + 100)
      timeCounter := st.timeCounter + 1 } := by
  simp only [processAccess, hk, hh]

/-- Step equation: store miss under write-allocate. -/
theorem processAccess_store_miss_wa (cfg : Config) (st : SimState) (a : Access)
    (hk : a.kind = AccessKind.store)
    (hh : (scanSet (tagOf cfg a.addr) (st.cache.getD (setIndexOf cfg a.addr) [])).hitIndex
      = none)
    (hwa : cfg.writeAllocate = true) :
    processAccess cfg st a = { st with
      cache := st.cache.set (setIndexOf cfg a.addr)
        ((st.cache.getD (setIndexOf cfg a.addr) []).set
          (missTarget (scanSet (tagOf cfg a.addr) (st.cache.getD (setIndexOf cfg a.addr) [])))
          { valid := true, dirty := cfg.writeBack, tag := tagOf cfg a.addr
            lastUsed := st.timeCounter + 1 })
      totalStores := st.totalStores + 1, storeMisses := st.storeMisses + 1
      cycles := st.cycles + 100 * (cfg.blockSize / 4) +
        missPenalty cfg (st.cache.getD (setIndexOf cfg a.addr) [])
          (scanSet (tagOf cfg a.addr) (st.cache.getD (setIndexOf cfg a.addr) [])) +
        (if cfg.writeBack then 1 else 1 + 100)
      timeCounter := st.timeCounter + 1 } := by
  simp only [processAccess, hk, hh, hwa, if_true]

/-- Step equation: store miss under no-write-allocate. -/
theorem processAccess_store_miss_nwa (cfg : Config) (st : SimState) (a : Access)
    (hk : a.kind = AccessKind.store)
    (hh : (scanSet (tagOf cfg a.addr) (st.cache.getD (setIndexOf cfg a.addr) [])).hitIndex
      = none)
    (hwa : cfg.writeAllocate = false) :
    processAccess cfg st a = { st with
      totalStores := st.totalStores + 1, storeMisses := st.storeMisses + 1
      cycles := st.cycles + 100, timeCounter := st.timeCounter + 1 } := by
  simp only [processAccess, hk, hh, hwa, Bool.false_eq_true, if_false]

/-! ## The reachable-state invariant -/

/-- Well-formedness of one set at global time `tc`: right length, valid
lines have pairwise distinct tags and pairwise distinct timestamps, and
timestamps never exceed the access counter. -/
def SetWF (bps tc : Nat) (L : List CacheLine) : Prop :=
  L.length = bps ∧
  (∀ i j, i < L.length → j < L.length → i ≠ j →
    (L.getD i emptyLine).valid = true → (L.getD j emptyLine).valid = true →
    (L.getD i emptyLine).tag ≠ (L.getD j emptyLine).tag ∧
    (L.getD i emptyLine).lastUsed ≠ (L.getD j emptyLine).lastUsed) ∧
  (∀ i, i < L.length → (L.getD i emptyLine).valid = true →
    (L.getD i emptyLine).lastUsed ≤ tc)

/-- Well-formedness of a whole simulator state. -/
def Good (cfg : Config) (st : SimState) : Prop :=
  st.cache.length = cfg.numSets ∧
  ∀ s, s < st.cache.length → SetWF cfg.blocksPerSet st.timeCounter (st.cache.getD s [])

/-- Set well-formedness is monotone in the time bound. -/
theorem SetWF_mono (bps tc : Nat) (L : List CacheLine) (h : SetWF bps tc L) :
    SetWF bps (tc + 1) L :=
  ⟨h.1, h.2.1, fun i hi hv => Nat.le_succ_of_le (h.2.2 i hi hv)⟩

/-- Writing one line whose timestamp is the fresh counter value `tc + 1`
and whose tag collides with no other valid line preserves set
well-formedness at the advanced time. -/
theorem SetWF_set_new (bps tc : Nat) (L : List CacheLine) (k : Nat) (nl : CacheLine)
    (hWF : SetWF bps tc L) (hk : k < L.length)
    (hlu : nl.lastUsed = tc + 1)
    (htag : ∀ j, j < L.length → j ≠ k → (L.getD j emptyLine).valid = true →
      (L.getD j emptyLine).tag ≠ nl.tag) :
    SetWF bps (tc + 1) (L.set k nl) := by
  obtain ⟨hlen, hdist, hbound⟩ := hWF
  refine ⟨by rw [List.length_set]; exact hlen, ?_, ?_⟩
  · intro i j hi hj hij hvi hvj
    rw [List.length_set] at hi hj
    rcases eq_or_ne i k with rfl | hik
    · rw [getD_set_self L i nl _ hk] at hvi ⊢
      rw [getD_set_ne L i j nl _ (by omega)] at hvj ⊢
      have htagj := htag j hj (by omega) hvj
      have hbj := hbound j hj hvj
      exact ⟨fun hc => htagj hc.symm, by omega⟩
    · rw [getD_set_ne L k i nl _ (by omega)] at hvi ⊢
      rcases eq_or_ne j k with rfl | hjk
      · rw [getD_set_self L j nl _ hk] at hvj ⊢
        have htagi := htag i hi (by omega) hvi
        have hbi := hbound i hi hvi
        exact ⟨htagi, by omega⟩
      · rw [getD_set_ne L k j nl _ (by omega)] at hvj ⊢
        exact hdist i j hi hj hij hvi hvj
  · intro i hi hvi
    rw [List.length_set] at hi
    rcases eq_or_ne i k with rfl | hik
    · rw [getD_set_self L i nl _ hk]
      omega
    · rw [getD_set_ne L k i nl _ (by omega)] at hvi ⊢
      exact Nat.le_succ_of_le (hbound i hi hvi)

/-- Rewriting one line without changing its valid flag, tag or
timestamp preserves set well-formedness. -/
theorem SetWF_set_samestats (bps tc : Nat) (L : List CacheLine) (k : Nat)
    (nl : CacheLine) (hWF : SetWF bps tc L) (hk : k < L.length)
    (hval : nl.valid = (L.getD k emptyLine).valid)
    (htag : nl.tag = (L.getD k emptyLine).tag)
    (hlu : nl.lastUsed = (L.getD k emptyLine).lastUsed) :
    SetWF bps tc (L.set k nl) := by
  obtain ⟨hlen, hdist, hbound⟩ := hWF
  refine ⟨by rw [List.length_set]; exact hlen, ?_, ?_⟩
  · intro i j hi hj hij hvi hvj
    rw [List.length_set] at hi hj
    rcases eq_or_ne i k with rfl | hik
    · rw [getD_set_self L i nl _ hk, hval] at hvi
      rw [getD_set_self L i nl _ hk, htag, hlu]
      rw [getD_set_ne L i j nl _ (by omega)] at hvj ⊢
      exact hdist i j hi hj hij hvi hvj
    · rw [getD_set_ne L k i nl _ (by omega)] at hvi ⊢
      rcases eq_or_ne j k with rfl | hjk
      · rw [getD_set_self L j nl _ hk, hval] at hvj
        rw [getD_set_self L j nl _ hk, htag, hlu]
        exact hdist i j hi hj hij hvi hvj
      · rw [getD_set_ne L k j nl _ (by omega)] at hvj ⊢
        exact hdist i j hi hj hij hvi hvj
  · intro i hi hvi
    rw [List.length_set] at hi
    rcases eq_or_ne i k with rfl | hik
    · rw [getD_set_self L i nl _ hk, hval] at hvi
      rw [getD_set_self L i nl _ hk, hlu]
      exact hbound i hi hvi
    · rw [getD_set_ne L k i nl _ (by omega)] at hvi ⊢
      exact hbound i hi hvi

/-- A state obtained by overwriting one (in-range) set with a
well-formed set, advancing the counter by one, stays well formed. -/
theorem Good_of_set (cfg : Config) (st st2 : SimState) (s : Nat)
    (set1 : List CacheLine) (hg : Good cfg st) (hs : s < st.cache.length)
    (hc : st2.cache = st.cache.set s set1)
    (ht : st2.timeCounter = st.timeCounter + 1)
    (hwf : SetWF cfg.blocksPerSet (st.timeCounter + 1) set1) :
    Good cfg st2 := by
  obtain ⟨hlen, hall⟩ := hg
  refine ⟨by rw [hc, List.length_set]; exact hlen, ?_⟩
  intro s2 hs2
  rw [hc, List.length_set] at hs2
  rw [hc, ht]
  rcases eq_or_ne s2 s with rfl | hne
  · rw [getD_set_self _ _ _ _ hs]
    exact hwf
  · rw [getD_set_ne _ _ _ _ _ (by omega)]
    exact SetWF_mono _ _ _ (hall s2 hs2)

/-- A state with untouched cache and advanced counter stays well
formed. -/
theorem Good_of_id (cfg : Config) (st st2 : SimState) (hg : Good cfg st)
    (hc : st2.cache = st.cache) (ht : st2.timeCounter = st.timeCounter + 1) :
    Good cfg st2 := by
  obtain ⟨hlen, hall⟩ := hg
  refine ⟨by rw [hc]; exact hlen, ?_⟩
  intro s2 hs2
  rw [hc] at hs2 ⊢
  rw [ht]
  exact SetWF_mono _ _ _ (hall s2 hs2)

/-- A matching line is valid and carries the looked-up tag. -/
theorem lineHits_true_iff (t : Nat) (l : CacheLine) :
    lineHits t l = true ↔ l.valid = true ∧ l.tag = t := by
  simp [lineHits]

/-- A valid non-matching line carries a different tag. -/
theorem lineHits_false_tag_ne (t : Nat) (l : CacheLine)
    (h : lineHits t l = false) (hv : l.valid = true) : l.tag ≠ t := by
  unfold lineHits at h
  rw [hv] at h
  simpa using h

/-- On a miss in a nonempty set the insertion target is in range. -/
theorem missTarget_lt (t : Nat) (L : List CacheLine)
    (hm : ∀ l ∈ L, lineHits t l = false) (hlen : 0 < L.length) :
    missTarget (scanSet t L) < L.length := by
  obtain ⟨_, hemp, hev⟩ := scanSet_miss_spec t L hm
  cases he : (scanSet t L).emptyIndex with
  | some e =>
    rw [he] at hemp
    simp only [EmptySpec] at hemp
    rw [missTarget, he]
    exact hemp.1
  | none =>
    cases ho : (scanSet t L).oldestTime with
    | none =>
      rw [ho] at hev
      simp only [EvictSpec] at hev
      omega
    | some m =>
      rw [ho] at hev
      simp only [EvictSpec] at hev
      rw [missTarget, he]
      exact hev.1

/-- On a miss, no valid line of the set carries the missed tag (by
index). -/
theorem miss_no_tag (t : Nat) (L : List CacheLine)
    (hm : ∀ l ∈ L, lineHits t l = false) :
    ∀ j, j < L.length → (L.getD j emptyLine).valid = true →
      (L.getD j emptyLine).tag ≠ t := by
  intro j hj hv
  exact lineHits_false_tag_ne t _ ((forall_mem_iff_getD L emptyLine _).1 hm j hj) hv

/-- The step function preserves well-formedness. -/
theorem good_step (cfg : Config) (st : SimState) (a : Access)
    (hv : validateConfig cfg = true) (hg : Good cfg st) :
    Good cfg (processAccess cfg st a) := by
  have hs : setIndexOf cfg a.addr < st.cache.length := by
    rw [hg.1]
    exact setIndexOf_lt cfg hv a.addr
  have hwfs : SetWF cfg.blocksPerSet st.timeCounter
      (st.cache.getD (setIndexOf cfg a.addr) []) := hg.2 _ hs
  have hlenL : (st.cache.getD (setIndexOf cfg a.addr) []).length = cfg.blocksPerSet :=
    hwfs.1
  have hbps : 0 < cfg.blocksPerSet := blocksPerSet_pos cfg hv
  cases hk : a.kind with
  | load =>
    cases hh : (scanSet (tagOf cfg a.addr)
        (st.cache.getD (setIndexOf cfg a.addr) [])).hitIndex with
    | some h =>
      rw [processAccess_load_hit cfg st a h hk hh]
      obtain ⟨hlt, hhit, _⟩ := scanSet_hitIndex_some _ _ h hh
      rw [lineHits_true_iff] at hhit
      cases hlru : cfg.useLRU with
      | true =>
        refine Good_of_set cfg st _ (setIndexOf cfg a.addr)
          ((st.cache.getD (setIndexOf cfg a.addr) []).set h
            { (st.cache.getD (setIndexOf cfg a.addr) []).getD h emptyLine with
              lastUsed := st.timeCounter + 1 })
          hg hs (by simp [hlru]) rfl ?_
        refine SetWF_set_new _ _ _ h _ hwfs hlt rfl ?_
        intro j hj hjh hvj
        exact (hwfs.2.1 j h hj hlt hjh hvj hhit.1).1
      | false =>
        refine Good_of_set cfg st _ (setIndexOf cfg a.addr)
          (st.cache.getD (setIndexOf cfg a.addr) [])
          hg hs (by simp [hlru]) rfl ?_
        exact SetWF_mono _ _ _ hwfs
    | none =>
      rw [processAccess_load_miss cfg st a hk hh]
      have hm := (scanSet_hitIndex_none_iff _ _).1 hh
      refine Good_of_set cfg st _ (setIndexOf cfg a.addr) _ hg hs rfl rfl ?_
      refine SetWF_set_new _ _ _ _ _ hwfs (missTarget_lt _ _ hm (by omega)) rfl ?_
      intro j hj hjt hvj
      exact miss_no_tag _ _ hm j hj hvj
  | store =>
    cases hh : (scanSet (tagOf cfg a.addr)
        (st.cache.getD (setIndexOf cfg a.addr) [])).hitIndex with
    | some h =>
      rw [processAccess_store_hit cfg st a h hk hh]
      obtain ⟨hlt, hhit, _⟩ := scanSet_hitIndex_some _ _ h hh
      rw [lineHits_true_iff] at hhit
      have htagj : ∀ j, j < (st.cache.getD (setIndexOf cfg a.addr) []).length →
          j ≠ h → ((st.cache.getD (setIndexOf cfg a.addr) []).getD j emptyLine).valid = true →
          ((st.cache.getD (setIndexOf cfg a.addr) []).getD j emptyLine).tag ≠
            ((st.cache.getD (setIndexOf cfg a.addr) []).getD h emptyLine).tag :=
        fun j hj hjh hvj => (hwfs.2.1 j h hj hlt hjh hvj hhit.1).1
      cases hlru : cfg.useLRU with
      | true =>
        cases hwb : cfg.writeBack with
        | true =>
          refine Good_of_set cfg st _ (setIndexOf cfg a.addr)
            ((st.cache.getD (setIndexOf cfg a.addr) []).set h
              { (st.cache.getD (setIndexOf cfg a.addr) []).getD h emptyLine with
                dirty := true, lastUsed := st.timeCounter + 1 })
            hg hs (by simp [hlru, hwb]) rfl ?_
          exact SetWF_set_new _ _ _ h _ hwfs hlt rfl htagj
        | false =>
          refine Good_of_set cfg st _ (setIndexOf cfg a.addr)
            ((st.cache.getD (setIndexOf cfg a.addr) []).set h
              { (st.cache.getD (setIndexOf cfg a.addr) []).getD h emptyLine with
                lastUsed := st.timeCounter + 1 })
            hg hs (by simp [hlru, hwb]) rfl ?_
          exact SetWF_set_new _ _ _ h _ hwfs hlt rfl htagj
      | false =>
        cases hwb : cfg.writeBack with
        | true =>
          refine Good_of_set cfg st _ (setIndexOf cfg a.addr)
            ((st.cache.getD (setIndexOf cfg a.addr) []).set h
              { (st.cache.getD (setIndexOf cfg a.addr) []).getD h emptyLine with
                dirty := true })
            hg hs (by simp [hlru, hwb]) rfl ?_
          exact SetWF_mono _ _ _
            (SetWF_set_samestats _ _ _ h _ hwfs hlt rfl rfl rfl)
        | false =>
          refine Good_of_set cfg st _ (setIndexOf cfg a.addr)
            ((st.cache.getD (setIndexOf cfg a.addr) []).set h
              ((st.cache.getD (setIndexOf cfg a.addr) []).getD h emptyLine))
            hg hs (by simp [hlru, hwb]) rfl ?_
          exact SetWF_mono _ _ _
            (SetWF_set_samestats _ _ _ h _ hwfs hlt rfl rfl rfl)
    | none =>
      cases hwa : cfg.writeAllocate with
      | true =>
        rw [processAccess_store_miss_wa cfg st a hk hh hwa]
        have hm := (scanSet_hitIndex_none_iff _ _).1 hh
        refine Good_of_set cfg st _ (setIndexOf cfg a.addr) _ hg hs rfl rfl ?_
        refine SetWF_set_new _ _ _ _ _ hwfs (missTarget_lt _ _ hm (by omega)) rfl ?_
        intro j hj hjt hvj
        exact miss_no_tag _ _ hm j hj hvj
      | false =>
        rw [processAccess_store_miss_nwa cfg st a hk hh hwa]
        exact Good_of_id cfg st _ hg rfl rfl

/-- The initial state is well formed. -/
theorem good_init (cfg : Config) : Good cfg (initState cfg) := by
  refine ⟨by simp [initState], ?_⟩
  intro s hs
  simp only [initState, List.length_replicate] at hs ⊢
  have hgs : (List.replicate cfg.numSets
      (List.replicate cfg.blocksPerSet emptyLine)).getD s [] =
      List.replicate cfg.blocksPerSet emptyLine := by
    rw [List.getD_eq_getElem?_getD, List.getElem?_replicate]
    simp [hs]
  rw [hgs]
  refine ⟨List.length_replicate .., ?_, ?_⟩
  · intro i j hi hj _ hvi _
    rw [List.length_replicate] at hi
    rw [List.getD_eq_getElem?_getD, List.getElem?_replicate, if_pos hi] at hvi
    cases hvi
  · intro i hi hvi
    rw [List.length_replicate] at hi
    rw [List.getD_eq_getElem?_getD, List.getElem?_replicate, if_pos hi] at hvi
    cases hvi

/-- Every state reached by simulating a trace from the initial state is
well formed. -/
theorem good_foldl (cfg : Config) (hv : validateConfig cfg = true) :
    ∀ (tr : List Access) (st : SimState), Good cfg st →
      Good cfg (tr.foldl (processAccess cfg) st) := by
  intro tr
  induction tr with
  | nil => intro st h; exact h
  | cons a rest ih =>
    intro st h
    exact ih _ (good_step cfg st a hv h)

/-- `simulate` only produces well-formed states. -/
theorem good_simulate (cfg : Config) (hv : validateConfig cfg = true)
    (tr : List Access) : Good cfg (simulate cfg tr) :=
  good_foldl cfg hv tr _ (good_init cfg)

/-! ## Counter and cycle step facts -/

/-- Each processed access keeps the hit/miss tallies consistent with the
totals. -/
theorem sums_step (cfg : Config) (st : SimState) (a : Access)
    (h1 : st.totalLoads = st.loadHits + st.loadMisses)
    (h2 : st.totalStores = st.storeHits + st.storeMisses) :
    (processAccess cfg st a).totalLoads =
      (processAccess cfg st a).loadHits + (processAccess cfg st a).loadMisses ∧
    (processAccess cfg st a).totalStores =
      (processAccess cfg st a).storeHits + (processAccess cfg st a).storeMisses := by
  cases hk : a.kind with
  | load =>
    cases hh : (scanSet (tagOf cfg a.addr)
        (st.cache.getD (setIndexOf cfg a.addr) [])).hitIndex with
    | some h =>
      rw [processAccess_load_hit cfg st a h hk hh]
      exact ⟨by simp; omega, by simp; omega⟩
    | none =>
      rw [processAccess_load_miss cfg st a hk hh]
      exact ⟨by simp; omega, by simp; omega⟩
  | store =>
    cases hh : (scanSet (tagOf cfg a.addr)
        (st.cache.getD (setIndexOf cfg a.addr) [])).hitIndex with
    | some h =>
      rw [processAccess_store_hit cfg st a h hk hh]
      exact ⟨by simp; omega, by simp; omega⟩
    | none =>
      cases hwa : cfg.writeAllocate with
      | true =>
        rw [processAccess_store_miss_wa cfg st a hk hh hwa]
        exact ⟨by simp; omega, by simp; omega⟩
      | false =>
        rw [processAccess_store_miss_nwa cfg st a hk hh hwa]
        exact ⟨by simp; omega, by simp; omega⟩

/-- Every processed access strictly increases the cycle counter. -/
theorem cycles_step (cfg : Config) (st : SimState) (a : Access) :
    st.cycles < (processAccess cfg st a).cycles := by
  cases hk : a.kind with
  | load =>
    cases hh : (scanSet (tagOf cfg a.addr)
        (st.cache.getD (setIndexOf cfg a.addr) [])).hitIndex with
    | some h =>
      rw [processAccess_load_hit cfg st a h hk hh]
      simp
    | none =>
      rw [processAccess_load_miss cfg st a hk hh]
      simp
      omega
  | store =>
    cases hh : (scanSet (tagOf cfg a.addr)
        (st.cache.getD (setIndexOf cfg a.addr) [])).hitIndex with
    | some h =>
      rw [processAccess_store_hit cfg st a h hk hh]
      cases hwb : cfg.writeBack <;> simp
    | none =>
      cases hwa : cfg.writeAllocate with
      | true =>
        rw [processAccess_store_miss_wa cfg st a hk hh hwa]
        cases hwb : cfg.writeBack <;> simp <;> omega
      | false =>
        rw [processAccess_store_miss_nwa cfg st a hk hh hwa]
        simp

/-- Appending one access to a trace runs exactly one more step. -/
theorem simulate_append_one (cfg : Config) (tr : List Access) (a : Access) :
    simulate cfg (tr ++ [a]) = processAccess cfg (simulate cfg tr) a := by
  rw [simulate, simulate, List.foldl_append]
  rfl

/-- Powers-of-two form of the validation predicate. -/
theorem validateConfig_true_iff (cfg : Config) :
    validateConfig cfg = true ↔
      (∃ i, cfg.numSets = 2 ^ i) ∧ (∃ j, cfg.blocksPerSet = 2 ^ j) ∧
      (∃ k, cfg.blockSize = 2 ^ k) ∧ 4 ≤ cfg.blockSize ∧
      ¬(cfg.writeAllocate = false ∧ cfg.writeBack = true) := by
  rw [validateConfig_iff, isPowerOfTwo_iff, isPowerOfTwo_iff, isPowerOfTwo_iff]

/-- C5: for every valid configuration and every trace, after any prefix
(equivalently, any trace) the statistics satisfy
`totalLoads = loadHits + loadMisses` and
`totalStores = storeHits + storeMisses`, and every processed access
strictly increases the cycle counter, so `cycles` is non-decreasing
along the run. -/
theorem claim_C5 (cfg : Config) (hv : validateConfig cfg = true) :
    (∀ tr : List Access,
      (simulate cfg tr).totalLoads =
        (simulate cfg tr).loadHits + (simulate cfg tr).loadMisses ∧
      (simulate cfg tr).totalStores =
        (simulate cfg tr).storeHits + (simulate cfg tr).storeMisses) ∧
    (∀ (tr : List Access) (a : Access),
      (simulate cfg tr).cycles < (simulate cfg (tr ++ [a])).cycles) := by
  constructor
  · intro tr
    have key : ∀ (l : List Access) (st : SimState),
        st.totalLoads = st.loadHits + st.loadMisses →
        st.totalStores = st.storeHits + st.storeMisses →
        (l.foldl (processAccess cfg) st).totalLoads =
          (l.foldl (processAccess cfg) st).loadHits +
          (l.foldl (processAccess cfg) st).loadMisses ∧
        (l.foldl (processAccess cfg) st).totalStores =
          (l.foldl (processAccess cfg) st).storeHits +
          (l.foldl (processAccess cfg) st).storeMisses := by
      intro l
      induction l with
      | nil => intro st h1 h2; exact ⟨h1, h2⟩
      | cons a rest ih =>
        intro st h1 h2
        have hstep := sums_step cfg st a h1 h2
        exact ih _ hstep.1 hstep.2
    exact key tr (initState cfg) rfl rfl
  · intro tr a
    rw [simulate_append_one]
    exact cycles_step cfg (simulate cfg tr) a

/-- Witness for C5 at a concrete configuration and trace. -/
theorem claim_C5_witness :
    validateConfig (⟨1, 1, 4, true, true, true⟩ : Config) = true ∧
    ((simulate (⟨1, 1, 4, true, true, true⟩ : Config)
        [(⟨AccessKind.load, 0⟩ : Access)]).totalLoads =
      (simulate (⟨1, 1, 4, true, true, true⟩ : Config)
        [(⟨AccessKind.load, 0⟩ : Access)]).loadHits +
      (simulate (⟨1, 1, 4, true, true, true⟩ : Config)
        [(⟨AccessKind.load, 0⟩ : Access)]).loadMisses) ∧
    (simulate (⟨1, 1, 4, true, true, true⟩ : Config) []).cycles <
      (simulate (⟨1, 1, 4, true, true, true⟩ : Config)
        ([] ++ [(⟨AccessKind.load, 0⟩ : Access)])).cycles := by
  refine ⟨by decide, ?_, ?_⟩
  · exact ((claim_C5 _ (by decide)).1 [(⟨AccessKind.load, 0⟩ : Access)]).1
  · exact (claim_C5 _ (by decide)).2 [] (⟨AccessKind.load, 0⟩ : Access)

/-- C6: construction fails (no cache is built, no access processed) iff
one of the three size parameters is not a positive power of two, or the
block size is below 4, or no-write-allocate is combined with
write-back; on every configuration passing the checks the whole
simulation of any trace is produced. -/
theorem claim_C6 (ns bps bs : Nat) (wa wb lru : Bool) (tr : List Access) :
    (runSimulation (⟨ns, bps, bs, wa, wb, lru⟩ : Config) tr = none ↔
      ¬((∃ i, ns = 2 ^ i) ∧ (∃ j, bps = 2 ^ j) ∧ (∃ k, bs = 2 ^ k) ∧
        4 ≤ bs ∧ ¬(wa = false ∧ wb = true))) ∧
    (validateConfig (⟨ns, bps, bs, wa, wb, lru⟩ : Config) = true →
      runSimulation (⟨ns, bps, bs, wa, wb, lru⟩ : Config) tr =
        some (simulate (⟨ns, bps, bs, wa, wb, lru⟩ : Config) tr)) := by
  constructor
  · rw [runSimulation]
    split
    · rename_i hvt
      rw [validateConfig_true_iff] at hvt
      simp only [reduceCtorEq, false_iff, not_not]
      exact hvt
    · rename_i hvf
      have hvf2 : ¬(validateConfig (⟨ns, bps, bs, wa, wb, lru⟩ : Config) = true) := hvf
      rw [validateConfig_true_iff] at hvf2
      simp only [true_iff]
      exact hvf2
  · intro hv
    rw [runSimulation, if_pos hv]

/-- Witness for C6: a valid configuration simulates; an invalid one is
rejected. -/
theorem claim_C6_witness :
    (runSimulation (⟨3, 1, 4, true, true, true⟩ : Config) [] = none) ∧
    (runSimulation (⟨1, 1, 4, true, true, true⟩ : Config) [] =
      some (simulate (⟨1, 1, 4, true, true, true⟩ : Config) [])) := by
  constructor
  · refine (claim_C6 3 1 4 true true true []).1.2 ?_
    rintro ⟨⟨i, hi⟩, -⟩
    rcases i with _ | _ | i
    · omega
    · omega
    · have h4 : 4 ≤ 2 ^ (i + 2) := by
        have := Nat.pow_le_pow_right (show 1 ≤ 2 by omega) (show 2 ≤ i + 2 by omega)
        simpa using this
      omega
  · exact (claim_C6 1 1 4 true true true []).2 (by decide)

/-- Non-residency is exactly a scan miss. -/
theorem residentB_false_iff (st : SimState) (s t : Nat) :
    residentB st s t = false ↔ (scanSet t (st.cache.getD s [])).hitIndex = none := by
  rw [Bool.eq_false_iff, ne_eq, residentB_iff_scan_hit, not_not]

/-- The configuration of concrete scenarios A and B:
`Config(numSets=1, blocksPerSet=1, blockSize=4, write-allocate,
write-back, LRU)`. -/
def cfgAB : Config := ⟨1, 1, 4, true, true, true⟩

/-- The configuration of concrete scenario D: no-write-allocate with
write-through. -/
def cfgD : Config := ⟨1, 1, 4, false, false, true⟩

/-- `Load(0x0)`. -/
def load0 : Access := ⟨AccessKind.load, 0⟩

/-- `Store(0x0)`. -/
def store0 : Access := ⟨AccessKind.store, 0⟩

/-- C1: every load is classified by the scan of its set; a load hit
increments `loadHits` and costs exactly 1 cycle, refreshing the hit
line's recency to the fresh counter value under LRU; a load miss
increments `loadMisses`, costs `100*(blockSize/4)+1` cycles plus the
write-back-eviction penalty of its source clause, and installs
`valid=true, tag=tag, recency=accessCounter, dirty=false` at the
insertion target.  Concretely, scenario A yields
`loadMisses=1, loadHits=1, totalLoads=2, cycles=102`. -/
theorem claim_C1 (cfg : Config) (st : SimState) (a : Access)
    (hv : validateConfig cfg = true) (hg : Good cfg st)
    (hk : a.kind = AccessKind.load) :
    (residentB st (setIndexOf cfg a.addr) (tagOf cfg a.addr) = true →
      (processAccess cfg st a).loadHits = st.loadHits + 1 ∧
      (processAccess cfg st a).loadMisses = st.loadMisses ∧
      (processAccess cfg st a).totalLoads = st.totalLoads + 1 ∧
      (processAccess cfg st a).cycles = st.cycles + 1 ∧
      (cfg.useLRU = true → ∃ h,
        (scanSet (tagOf cfg a.addr)
          (st.cache.getD (setIndexOf cfg a.addr) [])).hitIndex = some h ∧
        ((processAccess cfg st a).cache.getD (setIndexOf cfg a.addr) []).getD h emptyLine =
          ⟨((st.cache.getD (setIndexOf cfg a.addr) []).getD h emptyLine).valid,
           ((st.cache.getD (setIndexOf cfg a.addr) []).getD h emptyLine).dirty,
           ((st.cache.getD (setIndexOf cfg a.addr) []).getD h emptyLine).tag,
           st.timeCounter + 1⟩)) ∧
    (residentB st (setIndexOf cfg a.addr) (tagOf cfg a.addr) = false →
      (processAccess cfg st a).loadMisses = st.loadMisses + 1 ∧
      (processAccess cfg st a).loadHits = st.loadHits ∧
      (processAccess cfg st a).totalLoads = st.totalLoads + 1 ∧
      (processAccess cfg st a).cycles = st.cycles + (100 * (cfg.blockSize / 4) + 1) +
        missPenalty cfg (st.cache.getD (setIndexOf cfg a.addr) [])
          (scanSet (tagOf cfg a.addr) (st.cache.getD (setIndexOf cfg a.addr) [])) ∧
      ((processAccess cfg st a).cache.getD (setIndexOf cfg a.addr) []).getD
          (missTarget (scanSet (tagOf cfg a.addr)
            (st.cache.getD (setIndexOf cfg a.addr) []))) emptyLine =
        ⟨true, false, tagOf cfg a.addr, st.timeCounter + 1⟩) ∧
    ((simulate cfgAB [load0, load0]).loadMisses = 1 ∧
     (simulate cfgAB [load0, load0]).loadHits = 1 ∧
     (simulate cfgAB [load0, load0]).totalLoads = 2 ∧
     (simulate cfgAB [load0, load0]).cycles = 102) := by
  have hs : setIndexOf cfg a.addr < st.cache.length := by
    rw [hg.1]
    exact setIndexOf_lt cfg hv a.addr
  have hlenL : (st.cache.getD (setIndexOf cfg a.addr) []).length = cfg.blocksPerSet :=
    (hg.2 _ hs).1
  have hbps : 0 < cfg.blocksPerSet := blocksPerSet_pos cfg hv
  refine ⟨?_, ?_, by decide⟩
  · intro hres
    rw [residentB_iff_scan_hit] at hres
    cases hh : (scanSet (tagOf cfg a.addr)
        (st.cache.getD (setIndexOf cfg a.addr) [])).hitIndex with
    | none => exact absurd hh hres
    | some h =>
      obtain ⟨hlt, _, _⟩ := scanSet_hitIndex_some _ _ h hh
      rw [processAccess_load_hit cfg st a h hk hh]
      refine ⟨by simp, by simp, by simp, by simp, ?_⟩
      intro hlru
      refine ⟨h, rfl, ?_⟩
      simp only [hlru, if_true]
      rw [getD_set_self _ _ _ _ hs, getD_set_self _ _ _ _ hlt]
  · intro hres
    rw [residentB_false_iff] at hres
    rw [processAccess_load_miss cfg st a hk hres]
    have hm := (scanSet_hitIndex_none_iff _ _).1 hres
    have htgt := missTarget_lt _ _ hm (by omega)
    refine ⟨by simp, by simp, by simp, by simp, ?_⟩
    simp only
    rw [getD_set_self _ _ _ _ hs, getD_set_self _ _ _ _ htgt]

/-- Witness for C1: the second load of scenario A is a hit with the
stated effect, the first a miss. -/
theorem claim_C1_witness :
    (processAccess cfgAB (simulate cfgAB [load0]) load0).loadHits =
      (simulate cfgAB [load0]).loadHits + 1 ∧
    (processAccess cfgAB (initState cfgAB) load0).loadMisses =
      (initState cfgAB).loadMisses + 1 := by
  constructor
  · exact ((claim_C1 cfgAB (simulate cfgAB [load0]) load0 (by decide)
      (good_simulate cfgAB (by decide) [load0]) rfl).1 (by decide)).1
  · exact ((claim_C1 cfgAB (initState cfgAB) load0 (by decide)
      (good_init cfgAB) rfl).2.1 (by decide)).1

/-- C2: a store hit under write-through costs `1+100` cycles and leaves
the dirty bit unchanged; under write-back it costs 1 cycle and dirties
the hit line; under LRU the hit line's recency is refreshed.  A store
miss under write-allocate costs `100*(blockSize/4)` (plus the eviction
penalty), installs the tag on the target, then adds `1+100` with
`dirty=false` under write-through or `1` with `dirty=true` under
write-back.  Concretely, scenario B yields `storeMisses=1` at cost 101,
`storeHits=1` at cost 1, `cycles=102`, and the line ends dirty. -/
theorem claim_C2 (cfg : Config) (st : SimState) (a : Access)
    (hv : validateConfig cfg = true) (hg : Good cfg st)
    (hk : a.kind = AccessKind.store) :
    (residentB st (setIndexOf cfg a.addr) (tagOf cfg a.addr) = true →
      (processAccess cfg st a).storeHits = st.storeHits + 1 ∧
      (processAccess cfg st a).totalStores = st.totalStores + 1 ∧
      (processAccess cfg st a).cycles =
        st.cycles + (if cfg.writeBack then 1 else 1 + 100) ∧
      (∃ h, (scanSet (tagOf cfg a.addr)
          (st.cache.getD (setIndexOf cfg a.addr) [])).hitIndex = some h ∧
        (((processAccess cfg st a).cache.getD (setIndexOf cfg a.addr) []).getD h
            emptyLine).dirty =
          (if cfg.writeBack then true else
            ((st.cache.getD (setIndexOf cfg a.addr) []).getD h emptyLine).dirty) ∧
        (((processAccess cfg st a).cache.getD (setIndexOf cfg a.addr) []).getD h
            emptyLine).valid =
          ((st.cache.getD (setIndexOf cfg a.addr) []).getD h emptyLine).valid ∧
        (((processAccess cfg st a).cache.getD (setIndexOf cfg a.addr) []).getD h
            emptyLine).tag =
          ((st.cache.getD (setIndexOf cfg a.addr) []).getD h emptyLine).tag ∧
        (((processAccess cfg st a).cache.getD (setIndexOf cfg a.addr) []).getD h
            emptyLine).lastUsed =
          (if cfg.useLRU then st.timeCounter + 1 else
            ((st.cache.getD (setIndexOf cfg a.addr) []).getD h emptyLine).lastUsed))) ∧
    (residentB st (setIndexOf cfg a.addr) (tagOf cfg a.addr) = false →
      cfg.writeAllocate = true →
      (processAccess cfg st a).storeMisses = st.storeMisses + 1 ∧
      (processAccess cfg st a).totalStores = st.totalStores + 1 ∧
      (processAccess cfg st a).cycles = st.cycles + 100 * (cfg.blockSize / 4) +
        missPenalty cfg (st.cache.getD (setIndexOf cfg a.addr) [])
          (scanSet (tagOf cfg a.addr) (st.cache.getD (setIndexOf cfg a.addr) [])) +
        (if cfg.writeBack then 1 else 1 + 100) ∧
      ((processAccess cfg st a).cache.getD (setIndexOf cfg a.addr) []).getD
          (missTarget (scanSet (tagOf cfg a.addr)
            (st.cache.getD (setIndexOf cfg a.addr) []))) emptyLine =
        ⟨true, cfg.writeBack, tagOf cfg a.addr, st.timeCounter + 1⟩) ∧
    ((simulate cfgAB [store0]).storeMisses = 1 ∧
     (simulate cfgAB [store0]).cycles = 101 ∧
     (simulate cfgAB [store0, store0]).storeHits = 1 ∧
     (simulate cfgAB [store0, store0]).cycles = 102 ∧
     (((simulate cfgAB [store0, store0]).cache.getD 0 []).getD 0 emptyLine).dirty
       = true) := by
  have hs : setIndexOf cfg a.addr < st.cache.length := by
    rw [hg.1]
    exact setIndexOf_lt cfg hv a.addr
  have hlenL : (st.cache.getD (setIndexOf cfg a.addr) []).length = cfg.blocksPerSet :=
    (hg.2 _ hs).1
  have hbps : 0 < cfg.blocksPerSet := blocksPerSet_pos cfg hv
  refine ⟨?_, ?_, by decide⟩
  · intro hres
    rw [residentB_iff_scan_hit] at hres
    cases hh : (scanSet (tagOf cfg a.addr)
        (st.cache.getD (setIndexOf cfg a.addr) [])).hitIndex with
    | none => exact absurd hh hres
    | some h =>
      obtain ⟨hlt, _, _⟩ := scanSet_hitIndex_some _ _ h hh
      rw [processAccess_store_hit cfg st a h hk hh]
      refine ⟨by simp, by simp, by simp, h, rfl, ?_⟩
      simp only
      rw [getD_set_self _ _ _ _ hs, getD_set_self _ _ _ _ hlt]
      cases hwb : cfg.writeBack <;> cases hlru : cfg.useLRU <;>
        simp [hwb, hlru]
  · intro hres hwa
    rw [residentB_false_iff] at hres
    rw [processAccess_store_miss_wa cfg st a hk hres hwa]
    have hm := (scanSet_hitIndex_none_iff _ _).1 hres
    have htgt := missTarget_lt _ _ hm (by omega)
    refine ⟨by simp, by simp, by simp, ?_⟩
    simp only
    rw [getD_set_self _ _ _ _ hs, getD_set_self _ _ _ _ htgt]

/-- Witness for C2: the second store of scenario B is a hit, the first
a write-allocate miss. -/
theorem claim_C2_witness :
    (processAccess cfgAB (simulate cfgAB [store0]) store0).storeHits =
      (simulate cfgAB [store0]).storeHits + 1 ∧
    (processAccess cfgAB (initState cfgAB) store0).storeMisses =
      (initState cfgAB).storeMisses + 1 := by
  constructor
  · exact ((claim_C2 cfgAB (simulate cfgAB [store0]) store0 (by decide)
      (good_simulate cfgAB (by decide) [store0]) rfl).1 (by decide)).1
  · exact ((claim_C2 cfgAB (initState cfgAB) store0 (by decide)
      (good_init cfgAB) rfl).2.1 (by decide) rfl).1

/-- C3: on an allocating miss (load miss, or store miss under
write-allocate) the extra `100*(blockSize/4)` eviction penalty is paid
exactly when the set has no invalid line, the policy is write-back and
the minimum-recency victim is dirty; a no-write-allocate store miss
costs a flat 100 with no penalty. -/
theorem claim_C3 (cfg : Config) (st : SimState) (a : Access)
    (hv : validateConfig cfg = true) (hg : Good cfg st)
    (hm : residentB st (setIndexOf cfg a.addr) (tagOf cfg a.addr) = false) :
    ((scanSet (tagOf cfg a.addr) (st.cache.getD (setIndexOf cfg a.addr) [])).emptyIndex
        = none ↔
      ∀ j, j < (st.cache.getD (setIndexOf cfg a.addr) []).length →
        ((st.cache.getD (setIndexOf cfg a.addr) []).getD j emptyLine).valid = true) ∧
    ((scanSet (tagOf cfg a.addr) (st.cache.getD (setIndexOf cfg a.addr) [])).emptyIndex
        = none →
      ∀ j, j < (st.cache.getD (setIndexOf cfg a.addr) []).length →
        ((st.cache.getD (setIndexOf cfg a.addr) []).getD
          (scanSet (tagOf cfg a.addr)
            (st.cache.getD (setIndexOf cfg a.addr) [])).evictIndex
          emptyLine).lastUsed ≤
        ((st.cache.getD (setIndexOf cfg a.addr) []).getD j emptyLine).lastUsed) ∧
    (missPenalty cfg (st.cache.getD (setIndexOf cfg a.addr) [])
        (scanSet (tagOf cfg a.addr) (st.cache.getD (setIndexOf cfg a.addr) [])) =
      if (scanSet (tagOf cfg a.addr)
            (st.cache.getD (setIndexOf cfg a.addr) [])).emptyIndex = none ∧
          cfg.writeBack = true ∧
          ((st.cache.getD (setIndexOf cfg a.addr) []).getD
            (scanSet (tagOf cfg a.addr)
              (st.cache.getD (setIndexOf cfg a.addr) [])).evictIndex
            emptyLine).dirty = true
        then 100 * (cfg.blockSize / 4) else 0) ∧
    (a.kind = AccessKind.load →
      (processAccess cfg st a).cycles = st.cycles + (100 * (cfg.blockSize / 4) + 1) +
        missPenalty cfg (st.cache.getD (setIndexOf cfg a.addr) [])
          (scanSet (tagOf cfg a.addr) (st.cache.getD (setIndexOf cfg a.addr) []))) ∧
    (a.kind = AccessKind.store → cfg.writeAllocate = true →
      (processAccess cfg st a).cycles = st.cycles + 100 * (cfg.blockSize / 4) +
        missPenalty cfg (st.cache.getD (setIndexOf cfg a.addr) [])
          (scanSet (tagOf cfg a.addr) (st.cache.getD (setIndexOf cfg a.addr) [])) +
        (if cfg.writeBack then 1 else 1 + 100)) ∧
    (a.kind = AccessKind.store → cfg.writeAllocate = false →
      (processAccess cfg st a).cycles = st.cycles + 100) := by
  rw [residentB_false_iff] at hm
  have hnom := (scanSet_hitIndex_none_iff _ _).1 hm
  obtain ⟨-, hemp, hev⟩ := scanSet_miss_spec _ _ hnom
  refine ⟨?_, ?_, ?_, ?_, ?_, ?_⟩
  · constructor
    · intro he
      rw [he] at hemp
      simp only [EmptySpec] at hemp
      exact hemp
    · intro hall
      cases he : (scanSet (tagOf cfg a.addr)
          (st.cache.getD (setIndexOf cfg a.addr) [])).emptyIndex with
      | none => rfl
      | some e =>
        rw [he] at hemp
        simp only [EmptySpec] at hemp
        have := hall e hemp.1
        rw [this] at hemp
        exact absurd hemp.2.1 (by simp)
  · intro he j hj
    cases ho : (scanSet (tagOf cfg a.addr)
        (st.cache.getD (setIndexOf cfg a.addr) [])).oldestTime with
    | none =>
      rw [ho] at hev
      simp only [EvictSpec] at hev
      omega
    | some m =>
      rw [ho] at hev
      simp only [EvictSpec] at hev
      rw [hev.2.1]
      exact hev.2.2 j hj
  · rw [missPenalty]
    cases he : (scanSet (tagOf cfg a.addr)
        (st.cache.getD (setIndexOf cfg a.addr) [])).emptyIndex <;>
      cases hwb : cfg.writeBack <;>
      cases hd : ((st.cache.getD (setIndexOf cfg a.addr) []).getD
        (scanSet (tagOf cfg a.addr)
          (st.cache.getD (setIndexOf cfg a.addr) [])).evictIndex emptyLine).dirty <;>
      simp [he, hwb, hd]
  · intro hk
    rw [processAccess_load_miss cfg st a hk hm]
  · intro hk hwa
    rw [processAccess_store_miss_wa cfg st a hk hm hwa]
  · intro hk hwa
    rw [processAccess_store_miss_nwa cfg st a hk hm hwa]

/-- Witness for C3 at a concrete dirty-eviction state: under
`Config(1,1,4,write-allocate,write-back,LRU)`, after `Store(0x0)` the
single line is dirty, and the next load miss (address `0x4`) pays the
eviction penalty. -/
theorem claim_C3_witness :
    (processAccess cfgAB (simulate cfgAB [store0])
        (⟨AccessKind.load, 4⟩ : Access)).cycles =
      (simulate cfgAB [store0]).cycles + (100 * (cfgAB.blockSize / 4) + 1) +
        missPenalty cfgAB ((simulate cfgAB [store0]).cache.getD 0 [])
          (scanSet 1 ((simulate cfgAB [store0]).cache.getD 0 [])) := by
  exact (claim_C3 cfgAB (simulate cfgAB [store0]) (⟨AccessKind.load, 4⟩ : Access)
    (by decide) (good_simulate cfgAB (by decide) [store0]) (by decide)).2.2.2.1 rfl

/-- C4: under no-write-allocate, a store miss increments `storeMisses`,
costs exactly 100 cycles and leaves the entire cache untouched;
concretely (scenario D) `Store(0x0)` on the empty cache yields
`storeMisses=1`, cost 100, installs nothing, and the following
`Load(0x0)` still misses. -/
theorem claim_C4 (cfg : Config) (st : SimState) (a : Access)
    (hv : validateConfig cfg = true) (hwa : cfg.writeAllocate = false)
    (hk : a.kind = AccessKind.store)
    (hm : residentB st (setIndexOf cfg a.addr) (tagOf cfg a.addr) = false) :
    processAccess cfg st a =
      ⟨st.cache, st.totalLoads, st.totalStores + 1, st.loadHits, st.loadMisses,
       st.storeHits, st.storeMisses + 1, st.cycles + 100, st.timeCounter + 1⟩ ∧
    (processAccess cfg st a).cache = st.cache ∧
    (validateConfig cfgD = true ∧
     (simulate cfgD [store0]).storeMisses = 1 ∧
     (simulate cfgD [store0]).cycles = 100 ∧
     (simulate cfgD [store0]).cache = (initState cfgD).cache ∧
     (simulate cfgD [store0, load0]).loadMisses = 1) := by
  rw [residentB_false_iff] at hm
  rw [processAccess_store_miss_nwa cfg st a hk hm hwa]
  exact ⟨rfl, rfl, by decide⟩

/-- Witness for C4: scenario D's store miss leaves the initial cache
unchanged. -/
theorem claim_C4_witness :
    (processAccess cfgD (initState cfgD) store0).cache = (initState cfgD).cache :=
  (claim_C4 cfgD (initState cfgD) store0 (by decide) rfl rfl (by decide)).2.1

/-- C8: in every reachable state, no two valid lines of one set share a
tag; hence for any looked-up tag at most one line matches, and the scan
(first match, then stop) returns exactly that unique matching line. -/
theorem claim_C8 (cfg : Config) (hv : validateConfig cfg = true) (tr : List Access) :
    ∀ s, s < (simulate cfg tr).cache.length →
      (∀ i j, i < ((simulate cfg tr).cache.getD s []).length →
        j < ((simulate cfg tr).cache.getD s []).length → i ≠ j →
        (((simulate cfg tr).cache.getD s []).getD i emptyLine).valid = true →
        (((simulate cfg tr).cache.getD s []).getD j emptyLine).valid = true →
        (((simulate cfg tr).cache.getD s []).getD i emptyLine).tag ≠
          (((simulate cfg tr).cache.getD s []).getD j emptyLine).tag) ∧
      (∀ t i j, i < ((simulate cfg tr).cache.getD s []).length →
        j < ((simulate cfg tr).cache.getD s []).length →
        lineHits t (((simulate cfg tr).cache.getD s []).getD i emptyLine) = true →
        lineHits t (((simulate cfg tr).cache.getD s []).getD j emptyLine) = true →
        i = j) ∧
      (∀ t j, (scanSet t ((simulate cfg tr).cache.getD s [])).hitIndex = some j →
        lineHits t (((simulate cfg tr).cache.getD s []).getD j emptyLine) = true ∧
        ∀ m, m < ((simulate cfg tr).cache.getD s []).length → m ≠ j →
          lineHits t (((simulate cfg tr).cache.getD s []).getD m emptyLine) = false) := by
  intro s hs
  have hwf := (good_simulate cfg hv tr).2 s hs
  have hA : ∀ i j, i < ((simulate cfg tr).cache.getD s []).length →
      j < ((simulate cfg tr).cache.getD s []).length → i ≠ j →
      (((simulate cfg tr).cache.getD s []).getD i emptyLine).valid = true →
      (((simulate cfg tr).cache.getD s []).getD j emptyLine).valid = true →
      (((simulate cfg tr).cache.getD s []).getD i emptyLine).tag ≠
        (((simulate cfg tr).cache.getD s []).getD j emptyLine).tag :=
    fun i j hi hj hij hvi hvj => (hwf.2.1 i j hi hj hij hvi hvj).1
  have hB : ∀ t i j, i < ((simulate cfg tr).cache.getD s []).length →
      j < ((simulate cfg tr).cache.getD s []).length →
      lineHits t (((simulate cfg tr).cache.getD s []).getD i emptyLine) = true →
      lineHits t (((simulate cfg tr).cache.getD s []).getD j emptyLine) = true →
      i = j := by
    intro t i j hi hj hhi hhj
    rw [lineHits_true_iff] at hhi hhj
    by_contra hij
    exact hA i j hi hj hij hhi.1 hhj.1 (by rw [hhi.2, hhj.2])
  refine ⟨hA, hB, ?_⟩
  intro t j hj
  obtain ⟨hjlt, hjhit, -⟩ := scanSet_hitIndex_some _ _ j hj
  refine ⟨hjhit, fun m hm hmj => ?_⟩
  cases hcm : lineHits t (((simulate cfg tr).cache.getD s []).getD m emptyLine) with
  | false => rfl
  | true => exact absurd (hB t m j hm hjlt hcm hjhit) hmj

/-- Witness for C8 at a reachable two-line set: after loading tags 0
and 1, the two valid lines carry distinct tags, and the scan for tag 1
finds exactly line 1. -/
theorem claim_C8_witness :
    ((((simulate (⟨1, 2, 4, true, false, true⟩ : Config) [⟨AccessKind.load, 0⟩, ⟨AccessKind.load, 4⟩]).cache.getD 0
        []).getD 0 emptyLine).tag ≠
      (((simulate (⟨1, 2, 4, true, false, true⟩ : Config) [⟨AccessKind.load, 0⟩, ⟨AccessKind.load, 4⟩]).cache.getD 0
        []).getD 1 emptyLine).tag) ∧
    (lineHits 1 (((simulate (⟨1, 2, 4, true, false, true⟩ : Config) [⟨AccessKind.load, 0⟩, ⟨AccessKind.load, 4⟩]).cache.getD
        0 []).getD 1 emptyLine) = true ∧
     ∀ m, m < ((simulate (⟨1, 2, 4, true, false, true⟩ : Config) [⟨AccessKind.load, 0⟩,
         ⟨AccessKind.load, 4⟩]).cache.getD 0 []).length → m ≠ 1 →
       lineHits 1 (((simulate (⟨1, 2, 4, true, false, true⟩ : Config) [⟨AccessKind.load, 0⟩,
         ⟨AccessKind.load, 4⟩]).cache.getD 0 []).getD m emptyLine) = false) :=
  ⟨(claim_C8 (⟨1, 2, 4, true, false, true⟩ : Config) (by decide) [⟨AccessKind.load, 0⟩, ⟨AccessKind.load, 4⟩] 0
      (by decide)).1 0 1 (by decide) (by decide) (by decide) (by decide) (by decide),
   (claim_C8 (⟨1, 2, 4, true, false, true⟩ : Config) (by decide) [⟨AccessKind.load, 0⟩, ⟨AccessKind.load, 4⟩] 0
      (by decide)).2.2 1 1 (by decide)⟩

/-- C10: in every reachable state of the first program, valid lines of
one set have pairwise distinct `lastUsed` timestamps; consequently, on a
miss in a full set the scan's victim is the strict minimum — no other
valid line ties with it, so the lowest-index tie-break is never
exercised among valid lines. -/
theorem claim_C10 (cfg : Config) (hv : validateConfig cfg = true) (tr : List Access) :
    ∀ s, s < (simulate cfg tr).cache.length →
      (∀ i j, i < ((simulate cfg tr).cache.getD s []).length →
        j < ((simulate cfg tr).cache.getD s []).length → i ≠ j →
        (((simulate cfg tr).cache.getD s []).getD i emptyLine).valid = true →
        (((simulate cfg tr).cache.getD s []).getD j emptyLine).valid = true →
        (((simulate cfg tr).cache.getD s []).getD i emptyLine).lastUsed ≠
          (((simulate cfg tr).cache.getD s []).getD j emptyLine).lastUsed) ∧
      (∀ t, (∀ l ∈ (simulate cfg tr).cache.getD s [], lineHits t l = false) →
        (∀ j, j < ((simulate cfg tr).cache.getD s []).length →
          (((simulate cfg tr).cache.getD s []).getD j emptyLine).valid = true) →
        0 < ((simulate cfg tr).cache.getD s []).length →
        ∀ j, j < ((simulate cfg tr).cache.getD s []).length →
          j ≠ (scanSet t ((simulate cfg tr).cache.getD s [])).evictIndex →
          (((simulate cfg tr).cache.getD s []).getD
            (scanSet t ((simulate cfg tr).cache.getD s [])).evictIndex
            emptyLine).lastUsed <
          (((simulate cfg tr).cache.getD s []).getD j emptyLine).lastUsed) := by
  intro s hs
  have hwf := (good_simulate cfg hv tr).2 s hs
  refine ⟨fun i j hi hj hij hvi hvj => (hwf.2.1 i j hi hj hij hvi hvj).2, ?_⟩
  intro t hnom hfull hpos j hj hje
  obtain ⟨-, -, hev⟩ := scanSet_miss_spec t _ hnom
  cases ho : (scanSet t ((simulate cfg tr).cache.getD s [])).oldestTime with
  | none =>
    rw [ho] at hev
    simp only [EvictSpec] at hev
    omega
  | some m =>
    rw [ho] at hev
    simp only [EvictSpec] at hev
    have hle : m ≤ (((simulate cfg tr).cache.getD s []).getD j emptyLine).lastUsed :=
      hev.2.2 j hj
    have hne := (hwf.2.1 _ j hev.1 hj (by omega) (hfull _ hev.1) (hfull j hj)).2
    rw [hev.2.1]
    omega

/-- Witness for C10: after loading tags 0 and 1 into a 2-way set, the
two valid lines carry distinct timestamps, and on a miss for tag 2 in
the now-full set the victim is the strict minimum. -/
theorem claim_C10_witness :
    ((((simulate (⟨1, 2, 4, true, false, true⟩ : Config) [⟨AccessKind.load, 0⟩, ⟨AccessKind.load, 4⟩]).cache.getD 0
        []).getD 0 emptyLine).lastUsed ≠
      (((simulate (⟨1, 2, 4, true, false, true⟩ : Config) [⟨AccessKind.load, 0⟩, ⟨AccessKind.load, 4⟩]).cache.getD 0
        []).getD 1 emptyLine).lastUsed) ∧
    ((((simulate (⟨1, 2, 4, true, false, true⟩ : Config) [⟨AccessKind.load, 0⟩, ⟨AccessKind.load, 4⟩]).cache.getD 0
        []).getD (scanSet 2 ((simulate (⟨1, 2, 4, true, false, true⟩ : Config) [⟨AccessKind.load, 0⟩,
          ⟨AccessKind.load, 4⟩]).cache.getD 0 [])).evictIndex
        emptyLine).lastUsed <
      (((simulate (⟨1, 2, 4, true, false, true⟩ : Config) [⟨AccessKind.load, 0⟩, ⟨AccessKind.load, 4⟩]).cache.getD 0
        []).getD 1 emptyLine).lastUsed) :=
  ⟨(claim_C10 (⟨1, 2, 4, true, false, true⟩ : Config) (by decide) [⟨AccessKind.load, 0⟩, ⟨AccessKind.load, 4⟩] 0
      (by decide)).1 0 1 (by decide) (by decide) (by decide) (by decide) (by decide),
   (claim_C10 (⟨1, 2, 4, true, false, true⟩ : Config) (by decide) [⟨AccessKind.load, 0⟩, ⟨AccessKind.load, 4⟩] 0
      (by decide)).2 2 (by decide) (by decide) (by decide) 1 (by decide) (by decide)⟩

/-! ## Relating the two programs -/

/-- Forget the dirty bit of a line of the first program. -/
def strip (l : CacheLine) : CacheLine2 :=
  ⟨l.valid, l.tag, l.lastUsed⟩

/-- `getD` through the stripped cache. -/
theorem getD_map_strip (C : List (List CacheLine)) (s : Nat) :
    (C.map (fun L => L.map strip)).getD s [] = (C.getD s []).map strip := by
  rw [List.getD_eq_getElem?_getD, List.getD_eq_getElem?_getD, List.getElem?_map]
  cases C[s]? <;> rfl

/-- `getD` through a stripped set. -/
theorem getD_map_strip_line (L : List CacheLine) (i : Nat) :
    (L.map strip).getD i emptyLine2 = strip (L.getD i emptyLine) := by
  rw [List.getD_eq_getElem?_getD, List.getD_eq_getElem?_getD, List.getElem?_map]
  cases L[i]? <;> rfl

/-- Writing back the element already present changes nothing. -/
theorem set_getD_eq_self {α : Type} (L : List α) (k : Nat) (d : α)
    (hk : k < L.length) : L.set k (L.getD k d) = L := by
  apply List.ext_getElem?
  intro n
  rcases eq_or_ne k n with rfl | hne
  · rw [List.getElem?_set_self hk, getD_eq_getElem_of_lt L d hk,
      List.getElem?_eq_getElem hk]
  · rw [List.getElem?_set_ne hne]

/-- The two scans update their first-empty-slot summaries in step. -/
theorem upd2Empty_corr (l : CacheLine) (i : Nat) (st1 : ScanSt) (st2 : Scan2St)
    (hh : st2.hit = false)
    (he : st2.emptyIndex = st1.emptyIndex) (hev : st2.evictIndex = st1.evictIndex)
    (ho : st2.oldestTime = st1.oldestTime) :
    (upd2Empty (strip l) i st2).hit = false ∧
    (upd2Empty (strip l) i st2).emptyIndex = (updEmpty l i st1).emptyIndex ∧
    (upd2Empty (strip l) i st2).evictIndex = (updEmpty l i st1).evictIndex ∧
    (upd2Empty (strip l) i st2).oldestTime = (updEmpty l i st1).oldestTime := by
  rw [upd2Empty, updEmpty]
  have hc : (!(strip l).valid && st2.emptyIndex.isNone) =
      (!l.valid && st1.emptyIndex.isNone) := by rw [he]; rfl
  rw [hc]
  split <;> exact ⟨hh, by simp [he], by simp [hev], by simp [ho]⟩

/-- The two scans update their running-minimum summaries in step. -/
theorem upd2Evict_corr (l : CacheLine) (i : Nat) (st1 : ScanSt) (st2 : Scan2St)
    (hh : st2.hit = false)
    (he : st2.emptyIndex = st1.emptyIndex) (hev : st2.evictIndex = st1.evictIndex)
    (ho : st2.oldestTime = st1.oldestTime) :
    (upd2Evict (strip l) i st2).hit = false ∧
    (upd2Evict (strip l) i st2).emptyIndex = (updEvict l i st1).emptyIndex ∧
    (upd2Evict (strip l) i st2).evictIndex = (updEvict l i st1).evictIndex ∧
    (upd2Evict (strip l) i st2).oldestTime = (updEvict l i st1).oldestTime := by
  rw [upd2Evict, updEvict]
  have hc : ltOldest (strip l).lastUsed st2.oldestTime =
      ltOldest l.lastUsed st1.oldestTime := by rw [ho]; rfl
  rw [hc]
  split <;> exact ⟨hh, by simp [he], by simp [hev], by simp [ho, strip]⟩

/-- Under FIFO the second program's scan mutates nothing and computes
exactly the same hit flag, empty slot and victim as the first
program's scan. -/
theorem scan2Go_strip (t tcPre : Nat) :
    ∀ (L : List CacheLine) (i : Nat) (st1 : ScanSt) (st2 : Scan2St),
      st1.hitIndex = none → st2.hit = false →
      st2.emptyIndex = st1.emptyIndex → st2.evictIndex = st1.evictIndex →
      st2.oldestTime = st1.oldestTime →
      scan2Go false tcPre t (L.map strip) i st2 =
        (L.map strip,
         ⟨((scanGo t L i st1).hitIndex).isSome, (scanGo t L i st1).emptyIndex,
          (scanGo t L i st1).evictIndex, (scanGo t L i st1).oldestTime⟩) := by
  intro L
  induction L with
  | nil =>
    intro i st1 st2 h1 hh he hev ho
    simp only [List.map_nil]
    rw [scan2Go, scanGo]
    cases st2
    simp_all
  | cons l rest ih =>
    intro i st1 st2 h1 hh he hev ho
    rw [List.map_cons, scan2Go, scanGo]
    have hcond : ((strip l).valid && (strip l).tag == t) = lineHits t l := rfl
    rw [hcond]
    cases hl : lineHits t l with
    | true =>
      simp only [if_true]
      cases st2
      simp_all
    | false =>
      simp only [Bool.false_eq_true, if_false]
      obtain ⟨ph, pe, pv, po⟩ := upd2Empty_corr l i st1 st2 hh he hev ho
      obtain ⟨qh, qe, qv, qo⟩ :=
        upd2Evict_corr l i (updEmpty l i st1) (upd2Empty (strip l) i st2) ph pe pv po
      rw [ih (i + 1) (updEvict l i (updEmpty l i st1)) _
        (by rw [(updEvict_frame _ _ _).1, (updEmpty_frame _ _ _).1]; exact h1)
        qh qe qv qo]

/-- State correspondence between the two programs: identical caches up
to the dirty bit, identical counters, possibly different cycles. -/
def Rel (st1 : SimState) (st2 : SimState2) : Prop :=
  st2.cache = st1.cache.map (fun L => L.map strip) ∧
  st2.totalLoads = st1.totalLoads ∧ st2.totalStores = st1.totalStores ∧
  st2.loadHits = st1.loadHits ∧ st2.loadMisses = st1.loadMisses ∧
  st2.storeHits = st1.storeHits ∧ st2.storeMisses = st1.storeMisses ∧
  st2.timeCounter = st1.timeCounter

/-- The initial states correspond. -/
theorem rel_init (cfg : Config) : Rel (initState cfg) (initState2 cfg) := by
  refine ⟨?_, rfl, rfl, rfl, rfl, rfl, rfl, rfl⟩
  rw [initState, initState2]
  simp only [List.map_replicate]
  rfl

/-- Step equation of the second program: load hit. -/
theorem processAccess2_load_hit (cfg : Config) (st : SimState2) (a : Access)
    (hk : a.kind = AccessKind.load)
    (hh : (scan2Go cfg.useLRU st.timeCounter (tagOf cfg a.addr)
      (st.cache.getD (setIndexOf cfg a.addr) []) 0 ⟨false, none, 0, none⟩).2.hit = true) :
    processAccess2 cfg st a = { st with
      cache := st.cache.set (setIndexOf cfg a.addr)
        (scan2Go cfg.useLRU st.timeCounter (tagOf cfg a.addr)
          (st.cache.getD (setIndexOf cfg a.addr) []) 0 ⟨false, none, 0, none⟩).1
      totalLoads := st.totalLoads + 1, loadHits := st.loadHits + 1
      cycles := st.cycles + 1, timeCounter := st.timeCounter + 1 } := by
  simp only [processAccess2, hk, hh, if_true]

/-- Step equation of the second program: load miss. -/
theorem processAccess2_load_miss (cfg : Config) (st : SimState2) (a : Access)
    (hk : a.kind = AccessKind.load)
    (hh : (scan2Go cfg.useLRU st.timeCounter (tagOf cfg a.addr)
      (st.cache.getD (setIndexOf cfg a.addr) []) 0 ⟨false, none, 0, none⟩).2.hit = false) :
    processAccess2 cfg st a = { st with
      cache := st.cache.set (setIndexOf cfg a.addr)
        ((scan2Go cfg.useLRU st.timeCounter (tagOf cfg a.addr)
            (st.cache.getD (setIndexOf cfg a.addr) []) 0 ⟨false, none, 0, none⟩).1.set
          ((scan2Go cfg.useLRU st.timeCounter (tagOf cfg a.addr)
            (st.cache.getD (setIndexOf cfg a.addr) []) 0
            ⟨false, none, 0, none⟩).2.emptyIndex.getD
           (scan2Go cfg.useLRU st.timeCounter (tagOf cfg a.addr)
            (st.cache.getD (setIndexOf cfg a.addr) []) 0
            ⟨false, none, 0, none⟩).2.evictIndex)
          ⟨true, tagOf cfg a.addr, st.timeCounter + 1⟩)
      totalLoads := st.totalLoads + 1, loadMisses := st.loadMisses + 1
      cycles := st.cycles + 100 * (cfg.blockSize / 4)
      timeCounter := st.timeCounter + 1 } := by
  simp only [processAccess2, hk, hh, Bool.false_eq_true, if_false]

/-- Step equation of the second program: store hit. -/
theorem processAccess2_store_hit (cfg : Config) (st : SimState2) (a : Access)
    (hk : a.kind = AccessKind.store)
    (hh : (scan2Go cfg.useLRU st.timeCounter (tagOf cfg a.addr)
      (st.cache.getD (setIndexOf cfg a.addr) []) 0 ⟨false, none, 0, none⟩).2.hit = true) :
    processAccess2 cfg st a = { st with
      cache := st.cache.set (setIndexOf cfg a.addr)
        (scan2Go cfg.useLRU st.timeCounter (tagOf cfg a.addr)
          (st.cache.getD (setIndexOf cfg a.addr) []) 0 ⟨false, none, 0, none⟩).1
      totalStores := st.totalStores + 1, storeHits := st.storeHits + 1
      cycles := st.cycles + 1, timeCounter := st.timeCounter + 1 } := by
  simp only [processAccess2, hk, hh, if_true]

/-- Step equation of the second program: store miss, write-allocate. -/
theorem processAccess2_store_miss_wa (cfg : Config) (st : SimState2) (a : Access)
    (hk : a.kind = AccessKind.store)
    (hh : (scan2Go cfg.useLRU st.timeCounter (tagOf cfg a.addr)
      (st.cache.getD (setIndexOf cfg a.addr) []) 0 ⟨false, none, 0, none⟩).2.hit = false)
    (hwa : cfg.writeAllocate = true) :
    processAccess2 cfg st a = { st with
      cache := st.cache.set (setIndexOf cfg a.addr)
        ((scan2Go cfg.useLRU st.timeCounter (tagOf cfg a.addr)
            (st.cache.getD (setIndexOf cfg a.addr) []) 0 ⟨false, none, 0, none⟩).1.set
          ((scan2Go cfg.useLRU st.timeCounter (tagOf cfg a.addr)
            (st.cache.getD (setIndexOf cfg a.addr) []) 0
            ⟨false, none, 0, none⟩).2.emptyIndex.getD
           (scan2Go cfg.useLRU st.timeCounter (tagOf cfg a.addr)
            (st.cache.getD (setIndexOf cfg a.addr) []) 0
            ⟨false, none, 0, none⟩).2.evictIndex)
          ⟨true, tagOf cfg a.addr, st.timeCounter + 1⟩)
      totalStores := st.totalStores + 1, storeMisses := st.storeMisses + 1
      cycles := st.cycles + 100 * (cfg.blockSize / 4)
      timeCounter := st.timeCounter + 1 } := by
  simp only [processAccess2, hk, hh, hwa, Bool.false_eq_true, if_false, if_true]

/-- Step equation of the second program: store miss, no-write-allocate. -/
theorem processAccess2_store_miss_nwa (cfg : Config) (st : SimState2) (a : Access)
    (hk : a.kind = AccessKind.store)
    (hh : (scan2Go cfg.useLRU st.timeCounter (tagOf cfg a.addr)
      (st.cache.getD (setIndexOf cfg a.addr) []) 0 ⟨false, none, 0, none⟩).2.hit = false)
    (hwa : cfg.writeAllocate = false) :
    processAccess2 cfg st a = { st with
      totalStores := st.totalStores + 1, storeMisses := st.storeMisses + 1
      cycles := st.cycles + 100 * (cfg.blockSize / 4)
      timeCounter := st.timeCounter + 1 } := by
  simp only [processAccess2, hk, hh, hwa, Bool.false_eq_true, if_false]

/-- Under FIFO, one processed access preserves the correspondence
between the two programs. -/
theorem rel_step (cfg : Config) (a : Access) (st1 : SimState) (st2 : SimState2)
    (hlru : cfg.useLRU = false) (h : Rel st1 st2) :
    Rel (processAccess cfg st1 a) (processAccess2 cfg st2 a) := by
  obtain ⟨hc, h2, h3, h4, h5, h6, h7, h8⟩ := h
  have hset2 : st2.cache.getD (setIndexOf cfg a.addr) [] =
      (st1.cache.getD (setIndexOf cfg a.addr) []).map strip := by
    rw [hc, getD_map_strip]
  have hscanSet : scan2Go false st2.timeCounter (tagOf cfg a.addr)
      ((st1.cache.getD (setIndexOf cfg a.addr) []).map strip) 0
      ⟨false, none, 0, none⟩ =
      ((st1.cache.getD (setIndexOf cfg a.addr) []).map strip,
       ⟨((scanSet (tagOf cfg a.addr)
          (st1.cache.getD (setIndexOf cfg a.addr) [])).hitIndex).isSome,
        (scanSet (tagOf cfg a.addr)
          (st1.cache.getD (setIndexOf cfg a.addr) [])).emptyIndex,
        (scanSet (tagOf cfg a.addr)
          (st1.cache.getD (setIndexOf cfg a.addr) [])).evictIndex,
        (scanSet (tagOf cfg a.addr)
          (st1.cache.getD (setIndexOf cfg a.addr) [])).oldestTime⟩) :=
    scan2Go_strip (tagOf cfg a.addr) st2.timeCounter
      (st1.cache.getD (setIndexOf cfg a.addr) []) 0 _ _ rfl rfl rfl rfl rfl
  cases hk : a.kind with
  | load =>
    cases hh : (scanSet (tagOf cfg a.addr)
        (st1.cache.getD (setIndexOf cfg a.addr) [])).hitIndex with
    | some hidx =>
      have hh2 : (scan2Go cfg.useLRU st2.timeCounter (tagOf cfg a.addr)
          (st2.cache.getD (setIndexOf cfg a.addr) []) 0
          ⟨false, none, 0, none⟩).2.hit = true := by
        rw [hlru, hset2, hscanSet, hh]
        rfl
      rw [processAccess_load_hit cfg st1 a hidx hk hh,
        processAccess2_load_hit cfg st2 a hk hh2]
      refine ⟨?_, by simp [h2], by simp [h3], by simp [h4], by simp [h5],
        by simp [h6], by simp [h7], by simp [h8]⟩
      simp only [hlru, Bool.false_eq_true, if_false]
      rw [hset2, hscanSet, hc, List.map_set]
    | none =>
      have hh2 : (scan2Go cfg.useLRU st2.timeCounter (tagOf cfg a.addr)
          (st2.cache.getD (setIndexOf cfg a.addr) []) 0
          ⟨false, none, 0, none⟩).2.hit = false := by
        rw [hlru, hset2, hscanSet, hh]
        rfl
      rw [processAccess_load_miss cfg st1 a hk hh,
        processAccess2_load_miss cfg st2 a hk hh2]
      refine ⟨?_, by simp [h2], by simp [h3], by simp [h4], by simp [h5],
        by simp [h6], by simp [h7], by simp [h8]⟩
      simp only [hlru]
      rw [hset2, hscanSet, hc, h8]
      simp only [List.map_set, missTarget]
      rfl
  | store =>
    cases hh : (scanSet (tagOf cfg a.addr)
        (st1.cache.getD (setIndexOf cfg a.addr) [])).hitIndex with
    | some hidx =>
      have hh2 : (scan2Go cfg.useLRU st2.timeCounter (tagOf cfg a.addr)
          (st2.cache.getD (setIndexOf cfg a.addr) []) 0
          ⟨false, none, 0, none⟩).2.hit = true := by
        rw [hlru, hset2, hscanSet, hh]
        rfl
      obtain ⟨hlt, -, -⟩ := scanSet_hitIndex_some _ _ hidx hh
      rw [processAccess_store_hit cfg st1 a hidx hk hh,
        processAccess2_store_hit cfg st2 a hk hh2]
      refine ⟨?_, by simp [h2], by simp [h3], by simp [h4], by simp [h5],
        by simp [h6], by simp [h7], by simp [h8]⟩
      have hfst : (scan2Go false st2.timeCounter (tagOf cfg a.addr)
          (st2.cache.getD (setIndexOf cfg a.addr) []) 0
          ⟨false, none, 0, none⟩).1 =
          (st1.cache.getD (setIndexOf cfg a.addr) []).map strip := by
        rw [hset2, hscanSet]
      simp only [hlru, Bool.false_eq_true, if_false]
      rw [hfst, hc, List.map_set]
      congr 1
      cases hwb : cfg.writeBack with
      | true =>
        simp only [if_true]
        rw [List.map_set]
        have hstripA : strip
            { (st1.cache.getD (setIndexOf cfg a.addr) []).getD hidx emptyLine with
              dirty := true } =
            ((st1.cache.getD (setIndexOf cfg a.addr) []).map strip).getD hidx
              emptyLine2 := by
          rw [getD_map_strip_line]
          rfl
        rw [hstripA,
          set_getD_eq_self _ _ _ (by rw [List.length_map]; exact hlt)]
      | false =>
        simp only [Bool.false_eq_true, if_false]
        rw [List.map_set, ← getD_map_strip_line,
          set_getD_eq_self _ _ _ (by rw [List.length_map]; exact hlt)]
    | none =>
      have hh2 : (scan2Go cfg.useLRU st2.timeCounter (tagOf cfg a.addr)
          (st2.cache.getD (setIndexOf cfg a.addr) []) 0
          ⟨false, none, 0, none⟩).2.hit = false := by
        rw [hlru, hset2, hscanSet, hh]
        rfl
      cases hwa : cfg.writeAllocate with
      | true =>
        rw [processAccess_store_miss_wa cfg st1 a hk hh hwa,
          processAccess2_store_miss_wa cfg st2 a hk hh2 hwa]
        refine ⟨?_, by simp [h2], by simp [h3], by simp [h4], by simp [h5],
          by simp [h6], by simp [h7], by simp [h8]⟩
        simp only [hlru]
        rw [hset2, hscanSet, hc, h8]
        simp only [List.map_set, missTarget]
        rfl
      | false =>
        rw [processAccess_store_miss_nwa cfg st1 a hk hh hwa,
          processAccess2_store_miss_nwa cfg st2 a hk hh2 hwa]
        exact ⟨by simp [hc], by simp [h2], by simp [h3], by simp [h4],
          by simp [h5], by simp [h6], by simp [h7], by simp [h8]⟩

/-- LRU configuration on which the two programs' counters diverge:
`Config(numSets=1, blocksPerSet=2, blockSize=4, write-allocate,
write-through, LRU)`. -/
def cfg9 : Config := ⟨1, 2, 4, true, false, true⟩

/-- The diverging trace: load tags 1, 2, 1, 3, 1 (addresses 4, 8, 4,
12, 4).  The second program refreshes the hit at step 3 with the
pre-increment counter, ties the two timestamps, evicts the wrong line
at step 4 and therefore misses at step 5, where the first program
hits. -/
def tr9 : List Access :=
  [⟨AccessKind.load, 4⟩, ⟨AccessKind.load, 8⟩, ⟨AccessKind.load, 4⟩,
   ⟨AccessKind.load, 12⟩, ⟨AccessKind.load, 4⟩]

/-- Counterexample to C9 as stated: a valid LRU configuration and a
five-load trace on which the two programs report different `loadHits`
and `loadMisses` — they do not agree on all six counters, so the
disagreement is not confined to the cycle totals. -/
theorem claim_C9_counterexample :
    validateConfig cfg9 = true ∧ cfg9.useLRU = true ∧
    (simulate cfg9 tr9).loadHits = 2 ∧ (simulate2 cfg9 tr9).loadHits = 1 ∧
    (simulate cfg9 tr9).loadMisses = 3 ∧ (simulate2 cfg9 tr9).loadMisses = 4 ∧
    ¬((simulate2 cfg9 tr9).loadHits = (simulate cfg9 tr9).loadHits) := by
  decide

/-- C9 (amended): under the FIFO eviction policy the two programs
report identical `totalLoads`, `totalStores`, `loadHits`, `loadMisses`,
`storeHits` and `storeMisses` on every trace, disagreeing at most in
the cycle totals; under LRU the counters can already diverge (see the
counterexample). -/
theorem claim_C9 (cfg : Config) (hv : validateConfig cfg = true)
    (hlru : cfg.useLRU = false) (tr : List Access) :
    (simulate2 cfg tr).totalLoads = (simulate cfg tr).totalLoads ∧
    (simulate2 cfg tr).totalStores = (simulate cfg tr).totalStores ∧
    (simulate2 cfg tr).loadHits = (simulate cfg tr).loadHits ∧
    (simulate2 cfg tr).loadMisses = (simulate cfg tr).loadMisses ∧
    (simulate2 cfg tr).storeHits = (simulate cfg tr).storeHits ∧
    (simulate2 cfg tr).storeMisses = (simulate cfg tr).storeMisses := by
  have key : ∀ (l : List Access) (st1 : SimState) (st2 : SimState2),
      Rel st1 st2 → Rel (l.foldl (processAccess cfg) st1)
        (l.foldl (processAccess2 cfg) st2) := by
    intro l
    induction l with
    | nil => intro st1 st2 h; exact h
    | cons a rest ih =>
      intro st1 st2 h
      exact ih _ _ (rel_step cfg a st1 st2 hlru h)
  have h := key tr (initState cfg) (initState2 cfg) (rel_init cfg)
  exact ⟨h.2.1, h.2.2.1, h.2.2.2.1, h.2.2.2.2.1, h.2.2.2.2.2.1, h.2.2.2.2.2.2.1⟩

/-- FIFO configuration used to witness the amended C9. -/
def cfgF : Config := ⟨1, 2, 4, true, false, false⟩

/-- Witness trace for the amended C9 (contains a hit, an eviction and a
subsequent miss). -/
def trF : List Access :=
  [⟨AccessKind.load, 0⟩, ⟨AccessKind.load, 4⟩, ⟨AccessKind.load, 0⟩,
   ⟨AccessKind.load, 8⟩, ⟨AccessKind.store, 0⟩]

/-- Witness for the amended C9 at a concrete FIFO configuration. -/
theorem claim_C9_witness :
    (simulate2 cfgF trF).totalLoads = (simulate cfgF trF).totalLoads ∧
    (simulate2 cfgF trF).totalStores = (simulate cfgF trF).totalStores ∧
    (simulate2 cfgF trF).loadHits = (simulate cfgF trF).loadHits ∧
    (simulate2 cfgF trF).loadMisses = (simulate cfgF trF).loadMisses ∧
    (simulate2 cfgF trF).storeHits = (simulate cfgF trF).storeHits ∧
    (simulate2 cfgF trF).storeMisses = (simulate cfgF trF).storeMisses :=
  claim_C9 cfgF (by decide) rfl trF

/-! ## LRU residency (claim C7) -/

/-- An access to a different set leaves a set untouched. -/
theorem processAccess_frame (cfg : Config) (st : SimState) (a : Access) (s : Nat)
    (hne : setIndexOf cfg a.addr ≠ s) :
    (processAccess cfg st a).cache.getD s [] = st.cache.getD s [] := by
  cases hk : a.kind with
  | load =>
    cases hh : (scanSet (tagOf cfg a.addr)
        (st.cache.getD (setIndexOf cfg a.addr) [])).hitIndex with
    | some h =>
      rw [processAccess_load_hit cfg st a h hk hh]
      exact getD_set_ne _ _ _ _ _ hne
    | none =>
      rw [processAccess_load_miss cfg st a hk hh]
      exact getD_set_ne _ _ _ _ _ hne
  | store =>
    cases hh : (scanSet (tagOf cfg a.addr)
        (st.cache.getD (setIndexOf cfg a.addr) [])).hitIndex with
    | some h =>
      rw [processAccess_store_hit cfg st a h hk hh]
      exact getD_set_ne _ _ _ _ _ hne
    | none =>
      cases hwa : cfg.writeAllocate with
      | true =>
        rw [processAccess_store_miss_wa cfg st a hk hh hwa]
        exact getD_set_ne _ _ _ _ _ hne
      | false =>
        rw [processAccess_store_miss_nwa cfg st a hk hh hwa]

/-- Tracking invariant for the residency argument: tag `T` occupies
line `i` of set `s`, and every other valid line that is more recent
than `i` carries a tag from `seen`. -/
def TrackInv (cfg : Config) (s T : Nat) (seen : Finset Nat) (st : SimState) : Prop :=
  ∃ i, i < (st.cache.getD s []).length ∧
    ((st.cache.getD s []).getD i emptyLine).valid = true ∧
    ((st.cache.getD s []).getD i emptyLine).tag = T ∧
    ∀ j, j < (st.cache.getD s []).length → j ≠ i →
      ((st.cache.getD s []).getD j emptyLine).valid = true →
      ((st.cache.getD s []).getD i emptyLine).lastUsed <
        ((st.cache.getD s []).getD j emptyLine).lastUsed →
      ((st.cache.getD s []).getD j emptyLine).tag ∈ seen

/-- The tracking invariant is monotone in the allowance set. -/
theorem TrackInv_mono (cfg : Config) (s T : Nat) (seen seen2 : Finset Nat)
    (hsub : seen ⊆ seen2) (st : SimState) (h : TrackInv cfg s T seen st) :
    TrackInv cfg s T seen2 st := by
  obtain ⟨i, h1, h2, h3, h4⟩ := h
  exact ⟨i, h1, h2, h3, fun j hj hji hvj hlu => hsub (h4 j hj hji hvj hlu)⟩

/-- A hit on tag `T` under LRU refreshes its line to the newest
timestamp, establishing the tracking invariant with an empty allowance
set. -/
theorem trackInv_establish (cfg : Config) (s T : Nat) (a : Access) (st : SimState)
    (hv : validateConfig cfg = true) (hlru : cfg.useLRU = true)
    (hg : Good cfg st)
    (hset : setIndexOf cfg a.addr = s) (htag : tagOf cfg a.addr = T)
    (hres : residentB st s T = true) :
    TrackInv cfg s T ∅ (processAccess cfg st a) := by
  subst hset
  subst htag
  have hs : setIndexOf cfg a.addr < st.cache.length := by
    rw [hg.1]
    exact setIndexOf_lt cfg hv a.addr
  have hwfs := hg.2 _ hs
  rw [residentB_iff_scan_hit] at hres
  cases hh : (scanSet (tagOf cfg a.addr)
      (st.cache.getD (setIndexOf cfg a.addr) [])).hitIndex with
  | none => exact absurd hh hres
  | some h =>
    obtain ⟨hlt, hhit, -⟩ := scanSet_hitIndex_some _ _ h hh
    rw [lineHits_true_iff] at hhit
    have hbound : ∀ j, j < (st.cache.getD (setIndexOf cfg a.addr) []).length →
        ((st.cache.getD (setIndexOf cfg a.addr) []).getD j emptyLine).valid = true →
        ((st.cache.getD (setIndexOf cfg a.addr) []).getD j emptyLine).lastUsed ≤
          st.timeCounter := fun j hj hvj => hwfs.2.2 j hj hvj
    cases hk : a.kind with
    | load =>
      rw [processAccess_load_hit cfg st a h hk hh]
      simp only [hlru, if_true]
      refine ⟨h, ?_, ?_, ?_, ?_⟩
      · rw [getD_set_self _ _ _ _ hs, List.length_set]
        exact hlt
      · rw [getD_set_self _ _ _ _ hs, getD_set_self _ _ _ _ hlt]
        simpa using hhit.1
      · rw [getD_set_self _ _ _ _ hs, getD_set_self _ _ _ _ hlt]
        simpa using hhit.2
      · intro j hj hji hvj hlu
        rw [getD_set_self _ _ _ _ hs] at hj hvj hlu
        rw [List.length_set] at hj
        rw [getD_set_self _ _ _ _ hlt] at hlu
        rw [getD_set_ne _ _ _ _ _ (show h ≠ j by omega)] at hvj hlu
        have := hbound j hj hvj
        simp only at hlu
        omega
    | store =>
      rw [processAccess_store_hit cfg st a h hk hh]
      simp only [hlru, if_true]
      refine ⟨h, ?_, ?_, ?_, ?_⟩
      · rw [getD_set_self _ _ _ _ hs, List.length_set]
        exact hlt
      · rw [getD_set_self _ _ _ _ hs, getD_set_self _ _ _ _ hlt]
        cases cfg.writeBack <;> simpa using hhit.1
      · rw [getD_set_self _ _ _ _ hs, getD_set_self _ _ _ _ hlt]
        cases cfg.writeBack <;> simpa using hhit.2
      · intro j hj hji hvj hlu
        rw [getD_set_self _ _ _ _ hs] at hj hvj hlu
        rw [List.length_set] at hj
        rw [getD_set_self _ _ _ _ hlt] at hlu
        rw [getD_set_ne _ _ _ _ _ (show h ≠ j by omega)] at hvj hlu
        have := hbound j hj hvj
        cases cfg.writeBack <;> simp only at hlu <;> omega

/-- Generic preservation of the tracking invariant under a single-line
write that avoids the tracked line and whose new tag is allowed. -/
theorem TrackInv_after_set (cfg : Config) (s T : Nat) (seen seen2 : Finset Nat)
    (st st2 : SimState) (k : Nat) (nl : CacheLine)
    (hs : s < st.cache.length)
    (hc : st2.cache = st.cache.set s ((st.cache.getD s []).set k nl))
    (i : Nat) (hi : i < (st.cache.getD s []).length)
    (hvi : ((st.cache.getD s []).getD i emptyLine).valid = true)
    (hti : ((st.cache.getD s []).getD i emptyLine).tag = T)
    (hki : k ≠ i)
    (hseen : ∀ j, j < (st.cache.getD s []).length → j ≠ i →
      ((st.cache.getD s []).getD j emptyLine).valid = true →
      ((st.cache.getD s []).getD i emptyLine).lastUsed <
        ((st.cache.getD s []).getD j emptyLine).lastUsed →
      ((st.cache.getD s []).getD j emptyLine).tag ∈ seen)
    (hnl : nl.tag ∈ seen2) (hsub : seen ⊆ seen2) :
    TrackInv cfg s T seen2 st2 := by
  refine ⟨i, ?_, ?_, ?_, ?_⟩
  · rw [hc, getD_set_self _ _ _ _ hs, List.length_set]
    exact hi
  · rw [hc, getD_set_self _ _ _ _ hs, getD_set_ne _ _ _ _ _ hki]
    exact hvi
  · rw [hc, getD_set_self _ _ _ _ hs, getD_set_ne _ _ _ _ _ hki]
    exact hti
  · intro j hj hji hvj hlu
    rw [hc, getD_set_self _ _ _ _ hs] at hj hvj hlu ⊢
    rw [List.length_set] at hj
    rw [getD_set_ne _ _ _ _ _ hki] at hlu
    rcases eq_or_ne j k with rfl | hjk
    · rw [getD_set_self _ _ _ _ (by omega)]
      exact hnl
    · rw [getD_set_ne _ _ _ _ _ (by omega)] at hvj hlu ⊢
      exact hsub (hseen j hj hji hvj hlu)

/-- One access preserves the tracking invariant, enlarging the
allowance set by the access's own tag when it targets the tracked set
with an alien tag. -/
theorem trackInv_step (cfg : Config) (s T : Nat) (a : Access) (st : SimState)
    (seen : Finset Nat)
    (hv : validateConfig cfg = true) (hlru : cfg.useLRU = true)
    (hg : Good cfg st) (hinv : TrackInv cfg s T seen st)
    (hcard : (seen ∪ (otherTags cfg s T [a]).toFinset).card ≤ cfg.blocksPerSet - 2) :
    TrackInv cfg s T (seen ∪ (otherTags cfg s T [a]).toFinset)
      (processAccess cfg st a) := by
  obtain ⟨i, hi, hvi, hti, hseen⟩ := hinv
  by_cases hsame : setIndexOf cfg a.addr = s
  case neg =>
    have hframe := processAccess_frame cfg st a s hsame
    refine ⟨i, ?_, ?_, ?_, ?_⟩
    · rw [hframe]; exact hi
    · rw [hframe]; exact hvi
    · rw [hframe]; exact hti
    · intro j hj hji hvj hlu
      rw [hframe] at hj hvj hlu ⊢
      exact Finset.mem_union_left _ (hseen j hj hji hvj hlu)
  case pos =>
    by_cases htagT : tagOf cfg a.addr = T
    · -- an access to the tracked tag itself: it hits and refreshes
      have hres : residentB st s T = true := by
        rw [residentB, List.any_eq_true]
        refine ⟨(st.cache.getD s []).getD i emptyLine, ?_, ?_⟩
        · rw [getD_eq_getElem_of_lt _ _ hi]
          exact List.getElem_mem hi
        · rw [hvi, hti]
          simp
      exact TrackInv_mono cfg s T ∅ _ (Finset.empty_subset _) _
        (trackInv_establish cfg s T a st hv hlru hg hsame htagT hres)
    · -- an access to the tracked set with an alien tag
      subst hsame
      have hσ : setIndexOf cfg a.addr < st.cache.length := by
        rw [hg.1]
        exact setIndexOf_lt cfg hv a.addr
      have hwfs := hg.2 _ hσ
      have humem : tagOf cfg a.addr ∈
          seen ∪ (otherTags cfg (setIndexOf cfg a.addr) T [a]).toFinset := by
        refine Finset.mem_union_right _ ?_
        rw [List.mem_toFinset, otherTags, List.filterMap]
        simp [htagT]
      cases hh : (scanSet (tagOf cfg a.addr)
          (st.cache.getD (setIndexOf cfg a.addr) [])).hitIndex with
      | some h =>
        obtain ⟨hlt, hhit, -⟩ := scanSet_hitIndex_some _ _ h hh
        rw [lineHits_true_iff] at hhit
        have hhi : h ≠ i := by
          intro he
          apply htagT
          rw [← hhit.2, he, hti]
        cases hk : a.kind with
        | load =>
          rw [processAccess_load_hit cfg st a h hk hh]
          simp only [hlru, if_true]
          refine TrackInv_after_set cfg _ T seen _ st _ h _ hσ rfl i hi hvi hti hhi
            hseen ?_ Finset.subset_union_left
          show ((st.cache.getD (setIndexOf cfg a.addr) []).getD h emptyLine).tag ∈ _
          rw [hhit.2]
          exact humem
        | store =>
          rw [processAccess_store_hit cfg st a h hk hh]
          cases hwb : cfg.writeBack with
          | true =>
            simp only [hlru, hwb, if_true]
            refine TrackInv_after_set cfg _ T seen _ st _ h _ hσ rfl i hi hvi hti hhi
              hseen ?_ Finset.subset_union_left
            show ((st.cache.getD (setIndexOf cfg a.addr) []).getD h emptyLine).tag ∈ _
            rw [hhit.2]
            exact humem
          | false =>
            simp only [hlru, hwb, Bool.false_eq_true, if_false, if_true]
            refine TrackInv_after_set cfg _ T seen _ st _ h _ hσ rfl i hi hvi hti hhi
              hseen ?_ Finset.subset_union_left
            show ((st.cache.getD (setIndexOf cfg a.addr) []).getD h emptyLine).tag ∈ _
            rw [hhit.2]
            exact humem
      | none =>
        have hnom := (scanSet_hitIndex_none_iff _ _).1 hh
        obtain ⟨-, hemp, hev⟩ := scanSet_miss_spec _ _ hnom
        have htne : missTarget (scanSet (tagOf cfg a.addr)
            (st.cache.getD (setIndexOf cfg a.addr) [])) ≠ i := by
          cases he : (scanSet (tagOf cfg a.addr)
              (st.cache.getD (setIndexOf cfg a.addr) [])).emptyIndex with
          | some e =>
            rw [he] at hemp
            simp only [EmptySpec] at hemp
            rw [missTarget, he, Option.getD_some]
            intro hei
            rw [hei] at hemp
            rw [hvi] at hemp
            exact absurd hemp.2.1 (by simp)
          | none =>
            rw [he] at hemp
            simp only [EmptySpec] at hemp
            rw [missTarget, he]
            simp only [Option.getD_none]
            intro heq
            -- the victim cannot be the tracked line: otherwise all other
            -- lines are more recent, so at least blocksPerSet distinct
            -- alien tags would have to fit into an allowance of card
            -- at most blocksPerSet - 2
            cases ho : (scanSet (tagOf cfg a.addr)
                (st.cache.getD (setIndexOf cfg a.addr) [])).oldestTime with
            | none =>
              rw [ho] at hev
              simp only [EvictSpec] at hev
              omega
            | some m =>
              rw [ho] at hev
              simp only [EvictSpec] at hev
              rw [heq] at hev
              have hTags : ∀ j, j < (st.cache.getD (setIndexOf cfg a.addr) []).length →
                  j ≠ i →
                  ((st.cache.getD (setIndexOf cfg a.addr) []).getD j emptyLine).tag
                    ∈ seen := by
                intro j hj hji
                have hvj := hemp j hj
                have hne := (hwfs.2.1 i j hi hj (by omega) hvi hvj).2
                have hmin := hev.2.2 j hj
                exact hseen j hj hji hvj (by omega)
              have hlen : (st.cache.getD (setIndexOf cfg a.addr) []).length =
                  cfg.blocksPerSet := hwfs.1
              set Tags := ((Finset.range
                (st.cache.getD (setIndexOf cfg a.addr) []).length).erase i).image
                (fun j => ((st.cache.getD (setIndexOf cfg a.addr) []).getD j
                  emptyLine).tag) with hTagsDef
              have hcardTags : Tags.card =
                  (st.cache.getD (setIndexOf cfg a.addr) []).length - 1 := by
                rw [hTagsDef, Finset.card_image_of_injOn, Finset.card_erase_of_mem
                  (Finset.mem_range.2 hi), Finset.card_range]
                intro x hx y hy hxy
                simp only [Finset.coe_erase, Set.mem_diff, Finset.coe_range,
                  Set.mem_Iio, Set.mem_singleton_iff] at hx hy
                by_contra hne
                exact (hwfs.2.1 x y hx.1 hy.1 hne (hemp x hx.1) (hemp y hy.1)).1 hxy
              have husub : insert (tagOf cfg a.addr) Tags ⊆
                  seen ∪ (otherTags cfg (setIndexOf cfg a.addr) T [a]).toFinset := by
                intro x hx
                rcases Finset.mem_insert.1 hx with rfl | hx2
                · exact humem
                · rw [hTagsDef] at hx2
                  obtain ⟨j, hj, rfl⟩ := Finset.mem_image.1 hx2
                  simp only [Finset.mem_erase, Finset.mem_range] at hj
                  exact Finset.mem_union_left _ (hTags j hj.2 hj.1)
              have hucount : (insert (tagOf cfg a.addr) Tags).card = Tags.card + 1 := by
                refine Finset.card_insert_of_not_mem ?_
                rw [hTagsDef]
                intro hmem
                obtain ⟨j, hj, hje⟩ := Finset.mem_image.1 hmem
                simp only [Finset.mem_erase, Finset.mem_range] at hj
                exact miss_no_tag _ _ hnom j hj.2 (hemp j hj.2) hje
              have hle := Finset.card_le_card husub
              rw [hucount, hcardTags, hlen] at hle
              have hbpos : 0 < cfg.blocksPerSet := by
                rw [← hlen]
                omega
              omega
        cases hk : a.kind with
        | load =>
          rw [processAccess_load_miss cfg st a hk hh]
          exact TrackInv_after_set cfg _ T seen _ st _ _ _ hσ rfl i hi hvi hti htne
            hseen humem Finset.subset_union_left
        | store =>
          cases hwa : cfg.writeAllocate with
          | true =>
            rw [processAccess_store_miss_wa cfg st a hk hh hwa]
            exact TrackInv_after_set cfg _ T seen _ st _ _ _ hσ rfl i hi hvi hti htne
              hseen humem Finset.subset_union_left
          | false =>
            rw [processAccess_store_miss_nwa cfg st a hk hh hwa]
            exact ⟨i, hi, hvi, hti, fun j hj hji hvj hlu =>
              Finset.mem_union_left _ (hseen j hj hji hvj hlu)⟩

/-- Processing a whole access sequence preserves the tracking
invariant, with the allowance set enlarged by all alien tags the
sequence sends to the tracked set. -/
theorem trackInv_steps (cfg : Config) (s T : Nat)
    (hv : validateConfig cfg = true) (hlru : cfg.useLRU = true) :
    ∀ (mid : List Access) (st : SimState) (seen : Finset Nat),
      Good cfg st → TrackInv cfg s T seen st →
      (seen ∪ (otherTags cfg s T mid).toFinset).card ≤ cfg.blocksPerSet - 2 →
      TrackInv cfg s T (seen ∪ (otherTags cfg s T mid).toFinset)
        (mid.foldl (processAccess cfg) st) := by
  intro mid
  induction mid with
  | nil =>
    intro st seen hg hinv hcard
    rw [List.foldl_nil]
    rw [show (otherTags cfg s T []).toFinset = (∅ : Finset Nat) from rfl,
      Finset.union_empty]
    exact hinv
  | cons a rest ih =>
    intro st seen hg hinv hcard
    rw [List.foldl_cons]
    by_cases hc : setIndexOf cfg a.addr = s ∧ tagOf cfg a.addr ≠ T
    · have hsplit : otherTags cfg s T (a :: rest) =
          tagOf cfg a.addr :: otherTags cfg s T rest := by
        rw [otherTags, otherTags, List.filterMap_cons, if_pos hc]
      have hsingle : otherTags cfg s T [a] = [tagOf cfg a.addr] := by
        rw [otherTags, List.filterMap_cons, if_pos hc]
        rfl
      have hEq : seen ∪ (otherTags cfg s T (a :: rest)).toFinset =
          (seen ∪ (otherTags cfg s T [a]).toFinset) ∪
            (otherTags cfg s T rest).toFinset := by
        rw [hsplit, hsingle]
        ext x
        simp only [Finset.mem_union, List.mem_toFinset, List.mem_cons,
          List.mem_singleton, List.not_mem_nil, or_false]
        tauto
      rw [hEq]
      rw [hEq] at hcard
      have hcardA : (seen ∪ (otherTags cfg s T [a]).toFinset).card ≤
          cfg.blocksPerSet - 2 :=
        le_trans (Finset.card_le_card Finset.subset_union_left) hcard
      exact ih _ _ (good_step cfg st a hv hg)
        (trackInv_step cfg s T a st seen hv hlru hg hinv hcardA) hcard
    · have hsplit : otherTags cfg s T (a :: rest) = otherTags cfg s T rest := by
        rw [otherTags, otherTags, List.filterMap_cons, if_neg hc]
      have hsingle : (otherTags cfg s T [a]).toFinset = (∅ : Finset Nat) := by
        rw [otherTags, List.filterMap_cons, if_neg hc]
        rfl
      rw [hsplit] at hcard ⊢
      have hstep := trackInv_step cfg s T a st seen hv hlru hg hinv
        (by rw [hsingle, Finset.union_empty]
            exact le_trans (Finset.card_le_card Finset.subset_union_left) hcard)
      rw [hsingle, Finset.union_empty] at hstep
      exact ih _ _ (good_step cfg st a hv hg) hstep hcard

/-- The FIFO half of C7's scenario: a 2-way set under FIFO; tag 0 is
installed, hit once, and still evicted after two distinct other tags
are inserted. -/
def trF7 : List Access :=
  [⟨AccessKind.load, 0⟩, ⟨AccessKind.load, 4⟩, ⟨AccessKind.load, 0⟩,
   ⟨AccessKind.load, 8⟩]

/-- The LRU counterexample configuration for C7:
`Config(numSets=1, blocksPerSet=4, blockSize=4, write-allocate,
write-through, LRU)`. -/
def cfg7c : Config := ⟨1, 4, 4, true, false, true⟩

/-- The LRU counterexample trace for C7: install tags 0..3, hit each of
them once, then install tag 4. -/
def tr7c : List Access :=
  [⟨AccessKind.load, 0⟩, ⟨AccessKind.load, 4⟩, ⟨AccessKind.load, 8⟩,
   ⟨AccessKind.load, 12⟩, ⟨AccessKind.load, 0⟩, ⟨AccessKind.load, 4⟩,
   ⟨AccessKind.load, 8⟩, ⟨AccessKind.load, 12⟩, ⟨AccessKind.load, 16⟩]

/-- Counterexample to C7 as stated.  Under LRU with `blocksPerSet = 4`,
tag 0 is resident and hit at trace position 4; all installs of the run
carry pairwise distinct tags; after that hit only one distinct-tag
install reaches the set (position 8, within the last `N-1 = 3`
distinct-tag installs), yet tag 0 has been evicted by the end: hits by
*other* tags refresh recency without installing, so counting installs
does not protect a resident tag. -/
theorem claim_C7_counterexample :
    validateConfig cfg7c = true ∧ cfg7c.useLRU = true ∧
    cfg7c.blocksPerSet = 4 ∧
    residentB (simulate cfg7c (tr7c.take 4)) 0 0 = true ∧
    tr7c.getD 4 store0 = ⟨AccessKind.load, 0⟩ ∧
    residentB (simulate cfg7c (tr7c.take 5)) 0 0 = true ∧
    installedTags cfg7c tr7c 0 = [0, 1, 2, 3, 4] ∧
    installPositionsIn cfg7c tr7c 0 5 9 = [8] ∧
    residentB (simulate cfg7c tr7c) 0 0 = false := by
  decide

/-- C7 (amended): under LRU, a resident tag that is hit and afterwards
sees at most `N-2` distinct other tags *accessed* in its set (so that
it is within the last `N-1` distinct-tag accesses) is still resident;
under FIFO the same tag may be evicted once `N` distinct other tags
have been inserted, regardless of the hit pattern (shown concretely on
a 2-way set). -/
theorem claim_C7 (cfg : Config) (s T : Nat) (pre : List Access) (aT : Access)
    (mid : List Access)
    (hv : validateConfig cfg = true) (hlru : cfg.useLRU = true)
    (hset : setIndexOf cfg aT.addr = s) (htagT : tagOf cfg aT.addr = T)
    (hres : residentB (simulate cfg pre) s T = true)
    (hcard : ((otherTags cfg s T mid).toFinset).card ≤ cfg.blocksPerSet - 2) :
    residentB (simulate cfg (pre ++ aT :: mid)) s T = true ∧
    (validateConfig cfgF = true ∧ cfgF.useLRU = false ∧ cfgF.blocksPerSet = 2 ∧
     residentB (simulate cfgF (trF7.take 3)) 0 0 = true ∧
     (simulate cfgF (trF7.take 3)).loadHits = 1 ∧
     installedTags cfgF trF7 0 = [0, 1, 2] ∧
     residentB (simulate cfgF trF7) 0 0 = false) := by
  refine ⟨?_, by decide⟩
  have hsim : simulate cfg (pre ++ aT :: mid) =
      mid.foldl (processAccess cfg) (processAccess cfg (simulate cfg pre) aT) := by
    rw [simulate, simulate, List.foldl_append]
    rfl
  rw [hsim]
  have hg0 := good_simulate cfg hv pre
  have hest := trackInv_establish cfg s T aT (simulate cfg pre) hv hlru hg0
    hset htagT hres
  have hg1 := good_step cfg (simulate cfg pre) aT hv hg0
  have hsteps := trackInv_steps cfg s T hv hlru mid _ ∅ hg1 hest
    (by rw [Finset.empty_union]; exact hcard)
  obtain ⟨i, hi, hvi, hti, -⟩ := hsteps
  rw [residentB, List.any_eq_true]
  refine ⟨(((mid.foldl (processAccess cfg)
    (processAccess cfg (simulate cfg pre) aT)).cache.getD s []).getD i
      emptyLine), ?_, ?_⟩
  · rw [getD_eq_getElem_of_lt _ _ hi]
    exact List.getElem_mem hi
  · rw [hvi, hti]
    simp

/-- Witness for the amended C7: a 2-way LRU set, tag 0 installed and
hit, then accessed again with no alien tags in between — still
resident. -/
theorem claim_C7_witness :
    residentB (simulate cfg9 ([⟨AccessKind.load, 0⟩] ++
      (⟨AccessKind.load, 0⟩ : Access) :: [⟨AccessKind.load, 0⟩])) 0 0 = true ∧
    (validateConfig cfgF = true ∧ cfgF.useLRU = false ∧ cfgF.blocksPerSet = 2 ∧
     residentB (simulate cfgF (trF7.take 3)) 0 0 = true ∧
     (simulate cfgF (trF7.take 3)).loadHits = 1 ∧
     installedTags cfgF trF7 0 = [0, 1, 2] ∧
     residentB (simulate cfgF trF7) 0 0 = false) :=
  claim_C7 cfg9 0 0 [⟨AccessKind.load, 0⟩] ⟨AccessKind.load, 0⟩
    [⟨AccessKind.load, 0⟩] (by decide) rfl (by decide) (by decide) (by decide)
    (by decide)

end CacheSim
